import Mathlib

/-!
Shallow embedding of the id-kit library (src/alphabet.ts, src/luhn.ts, src/mod36.ts,
src/index.ts). Strings are modelled as `List Char`; a JavaScript function that can throw
is modelled as returning `Option` (`none` = a thrown Error). The injected random source
(the `rng` option of generateId, a function returning a float in [0,1)) is modelled as a
sequence `rng : ℕ → ℚ`, where `rng i` is the value produced by the i-th call; the
Math.random / WebCrypto fallbacks of getRng are external collaborators and out of scope.
-/

namespace IdKit

/-- The two supported character sets (type Charset in src/index.ts). -/
inductive Charset
  | numeric
  | alphanumeric
  deriving DecidableEq, Repr

/-- Checksum algorithm selector (type Algorithm in src/index.ts). -/
inductive Algorithm
  | none
  | luhn
  | mod36
  deriving DecidableEq, Repr

/-- ALPHABET_NUM from src/alphabet.ts. -/
def ALPHABET_NUM : List Char := "0123456789".data

/-- ALPHABET_BASE36 from src/alphabet.ts. -/
def ALPHABET_BASE36 : List Char := "0123456789ABCDEFGHIJKLMNOPQRSTUVWXYZ".data

/-- mapToCharset from src/alphabet.ts: uppercase first for the alphanumeric charset, then
keep exactly the characters whose indexOf in the allowed alphabet is not -1, preserving
order. (Char.toUpper performs the ASCII case fold that String.prototype.toUpperCase
performs on the alphabet-relevant characters.) -/
def mapToCharset (input : List Char) (charset : Charset) : List Char :=
  let src := if charset = Charset.alphanumeric then input.map Char.toUpper else input
  let allowed := if charset = Charset.alphanumeric then ALPHABET_BASE36 else ALPHABET_NUM
  src.filter (fun ch => allowed.contains ch)

/-- JavaScript list indexing `l[i]`: out-of-range access yields undefined, modelled by a
placeholder character (unreachable whenever the index is a floor of q * l.length with
q in [0,1) and l nonempty). -/
def listAtD (l : List Char) (i : ℤ) (d : Char) : Char :=
  if 0 ≤ i then l.getD i.toNat d else d

/-- randChar from src/alphabet.ts: table[Math.floor(rng() * table.length)]. The single
rng() draw is passed in as the value q. -/
def randChar (q : ℚ) (charset : Charset) : Char :=
  let table := if charset = Charset.alphanumeric then ALPHABET_BASE36 else ALPHABET_NUM
  listAtD table ⌊q * table.length⌋ 'u'

/-- String(n) for a JavaScript number holding an integer: its decimal representation. -/
def jsIntStr (i : ℤ) : List Char :=
  if i < 0 then '-' :: (Nat.repr i.natAbs).data else (Nat.repr i.toNat).data

/-- The right-to-left scan of luhnChecksumDigit (src/luhn.ts): the argument list is the
body already reversed, dbl is the alternating doubling flag which starts true at the
rightmost character; none models the thrown "Non-digit in luhnChecksumDigit" error. -/
def luhnSumFromRight (l : List Char) (dbl : Bool) : Option ℕ :=
  match l with
  | [] => some 0
  | c :: rest =>
    if c.toNat < 48 ∨ 57 < c.toNat then Option.none
    else
      let code := c.toNat - 48
      let v := if dbl then (if 9 < code * 2 then code * 2 - 9 else code * 2) else code
      (luhnSumFromRight rest (!dbl)).map (fun s => s + v)

/-- luhnChecksumDigit from src/luhn.ts: m = sum % 10; m = 0 gives 0, otherwise 10 - m. -/
def luhnChecksumDigit (body : List Char) : Option ℕ :=
  (luhnSumFromRight body.reverse true).map (fun sum => if sum % 10 = 0 then 0 else 10 - sum % 10)

/-- Value of a digit character (charCodeAt - 48). -/
def digitVal (c : Char) : ℕ := c.toNat - 48

/-- luhnValidate from src/luhn.ts: regex ^\d{2,}$ gate, then compare the checksum digit
recomputed from the body (all but the last character) against Number(last character).
The inner none branch is the unreachable throw of luhnChecksumDigit on an all-digit body. -/
def luhnValidate (full : List Char) : Bool :=
  if 2 ≤ full.length ∧ full.all Char.isDigit then
    match luhnChecksumDigit full.dropLast with
    | some d => d == digitVal (full.getLastD '0')
    | Option.none => false
  else false

/-- Membership in the character class [0-9A-Z]. -/
def isBase36 (c : Char) : Bool := c.isDigit || ('A' ≤ c && c ≤ 'Z')

/-- mod36CheckChar from src/mod36.ts: the regex ^[0-9A-Z]+$ gate (which rejects the empty
body), then the sum of ALPHABET_BASE36 indexes, mapped back through the alphabet at
index (36 - sum % 36) % 36; none models the thrown error. -/
def mod36CheckChar (body : List Char) : Option Char :=
  if body ≠ [] ∧ body.all isBase36 then
    let sum := (body.map (fun ch => ALPHABET_BASE36.indexOf ch)).sum
    some (ALPHABET_BASE36.getD ((36 - sum % 36) % 36) 'u')
  else Option.none

/-- mod36Validate from src/mod36.ts: regex ^[0-9A-Z]{2,}$ gate, split body / check
character, compare the recomputed check character. The body has at least one character
here, so the recomputation cannot throw. -/
def mod36Validate (full : List Char) : Bool :=
  if 2 ≤ full.length ∧ full.all isBase36 then
    match mod36CheckChar full.dropLast with
    | some c => c == full.getLastD 'u'
    | Option.none => false
  else false

/-- Whitespace removed by String.prototype.trim (the ASCII part: space, tab, newline,
carriage return, vertical tab, form feed). -/
def isJsSpace (c : Char) : Bool :=
  c == ' ' || c == '\t' || c == '\n' || c == '\r' || c.toNat == 11 || c.toNat == 12

/-- String.prototype.trim. -/
def jsTrim (s : List Char) : List Char :=
  ((s.dropWhile isJsSpace).reverse.dropWhile isJsSpace).reverse

/-- The character class a '#' slot compiles to in buildPatternRegex: \d for numeric,
[0-9A-Z] for alphanumeric. -/
def classMember (charset : Charset) (c : Char) : Bool :=
  if charset = Charset.numeric then c.isDigit else isBase36 c

/-- Matcher semantics of the anchored regex built by buildPatternRegex (src/index.ts):
position by position, '#' matches one charset-class character and every other pattern
character matches itself (escapeRegex makes the metacharacters literal). -/
def patternMatch (p : List Char) (charset : Charset) (input : List Char) : Bool :=
  match p, input with
  | [], [] => true
  | [], _ :: _ => false
  | _ :: _, [] => false
  | pc :: ps, c :: rest =>
    (if pc = '#' then classMember charset c else pc == c) && patternMatch ps charset rest

/-- The index-accumulating loop of lastHashIndex (src/index.ts). -/
def lastHashIndexAux (l : List Char) (i : ℕ) (acc : Option ℕ) : Option ℕ :=
  match l with
  | [] => acc
  | c :: rest => lastHashIndexAux rest (i + 1) (if c = '#' then some i else acc)

/-- lastHashIndex from src/index.ts: index of the last '#' of the trimmed pattern; none
models the -1 result. -/
def lastHashIndex (p : List Char) : Option ℕ :=
  lastHashIndexAux (jsTrim p) 0 Option.none

/-- GenerateOptions (src/index.ts), minus the rng / useCrypto fields: the random source
is passed separately as the value sequence of the injected rng. -/
structure GenerateOptions where
  groups : Option ℕ := Option.none
  groupSize : Option ℕ := Option.none
  totalLength : Option ℕ := Option.none
  separator : Option (List Char) := Option.none
  algorithm : Option Algorithm := Option.none
  charset : Option Charset := Option.none
  pattern : Option (List Char) := Option.none
  deriving Repr

/-- ValidateOptions (src/index.ts). -/
structure ValidateOptions where
  groups : Option ℕ := Option.none
  groupSize : Option ℕ := Option.none
  totalLength : Option ℕ := Option.none
  algorithm : Option Algorithm := Option.none
  charset : Option Charset := Option.none
  pattern : Option (List Char) := Option.none
  deriving Repr

/-- FormatOptions (src/index.ts). -/
structure FormatOptions where
  groups : Option ℕ := Option.none
  groupSize : Option ℕ := Option.none
  separator : Option (List Char) := Option.none
  charset : Option Charset := Option.none
  deriving Repr

/-- normalizeId from src/index.ts. -/
def normalizeId (input : List Char) : List Char := mapToCharset input Charset.numeric

/-- normalizeIdForCharset from src/index.ts. -/
def normalizeIdForCharset (input : List Char) (charset : Charset) : List Char :=
  mapToCharset input charset

/-- The chunking loop of formatId: one slice(i, i+groupSize) per loop iteration; the
iteration count is passed explicitly (the loop runs `groups` times when groupSize > 0 and
the normalized length equals groups * groupSize, and zero times when groupSize = 0 since
then the expected length is 0). -/
def chunkAux (gs : ℕ) (s : List Char) (n : ℕ) : List (List Char) :=
  match n with
  | 0 => []
  | n + 1 => s.take gs :: chunkAux gs (s.drop gs) n

/-- formatId from src/index.ts: normalize to the charset, require length groups *
groupSize (none models the thrown length error), then join the fixed-size chunks with
the separator. -/
def formatId (input : List Char) (opts : FormatOptions) : Option (List Char) :=
  let groups := opts.groups.getD 4
  let groupSize := opts.groupSize.getD 4
  let sep := opts.separator.getD [' ']
  let charset := opts.charset.getD Charset.numeric
  let normalized := mapToCharset input charset
  let expected := groups * groupSize
  if normalized.length ≠ expected then Option.none
  else some (List.intercalate sep (if groupSize = 0 then [] else chunkAux groupSize normalized groups))

/-- The slot-filling loop of generateId's pattern mode (src/index.ts): i is the position
inside the trimmed pattern, k the index of the next unconsumed rng value; a '#' that is
the checksum slot (useAlgo true and position = hashPos) keeps the '#' placeholder and
consumes nothing, every other '#' consumes one rng value, literals are copied. Returns
the built string and the next rng index. -/
def fillPattern (rng : ℕ → ℚ) (charset : Charset) (useAlgo : Bool) (hashPos : Option ℕ)
    (p : List Char) (i : ℕ) (k : ℕ) : List Char × ℕ :=
  match p with
  | [] => ([], k)
  | c :: rest =>
    if c = '#' then
      if useAlgo ∧ hashPos = some i then
        let r := fillPattern rng charset useAlgo hashPos rest (i + 1) k
        ('#' :: r.1, r.2)
      else
        let r := fillPattern rng charset useAlgo hashPos rest (i + 1) (k + 1)
        (randChar (rng k) charset :: r.1, r.2)
    else
      let r := fillPattern rng charset useAlgo hashPos rest (i + 1) k
      (c :: r.1, r.2)

/-- The bodyForCheck loop shared by generateId and validateId (src/index.ts): collect the
characters of `built` at the positions where the pattern has a '#' other than the
checksum slot hp, in pattern order. -/
def extractBody (p : List Char) (built : List Char) (i : ℕ) (hp : ℕ) : List Char :=
  match p, built with
  | pc :: ps, bc :: bs =>
    if pc = '#' ∧ i ≠ hp then bc :: extractBody ps bs (i + 1) hp
    else extractBody ps bs (i + 1) hp
  | _, _ => []

/-- The checksum-injection loop of generateId's pattern mode (src/index.ts): replace the
'#' placeholder at position hp by the computed check string. -/
def injectCheck (hp : ℕ) (checkStr : List Char) (built : List Char) (i : ℕ) : List Char :=
  match built with
  | [] => []
  | c :: rest => (if c = '#' ∧ i = hp then checkStr else [c]) ++ injectCheck hp checkStr rest (i + 1)

/-- The digit loop of generateId's numeric fixed-length body: String(Math.floor(rng() * 10))
per iteration; k is the next rng index, n the remaining iteration count. -/
def genDigits (rng : ℕ → ℚ) (k : ℕ) (n : ℕ) : List Char × ℕ :=
  match n with
  | 0 => ([], k)
  | n + 1 =>
    let d := jsIntStr ⌊rng k * 10⌋
    let r := genDigits rng (k + 1) n
    (d ++ r.1, r.2)

/-- The numeric fixed-length body of generateId: first character String(1 + Math.floor
(rng() * 9)) (no leading zero), then bodyLen - 1 further digits. -/
def genNumericBody (rng : ℕ → ℚ) (k : ℕ) (bodyLen : ℕ) : List Char × ℕ :=
  let first := jsIntStr (1 + ⌊rng k * 9⌋)
  let r := genDigits rng (k + 1) (bodyLen - 1)
  (first ++ r.1, r.2)

/-- The alphanumeric fixed-length body of generateId: bodyLen draws of randChar. -/
def genAlnumChars (rng : ℕ → ℚ) (k : ℕ) (n : ℕ) : List Char × ℕ :=
  match n with
  | 0 => ([], k)
  | n + 1 =>
    let r := genAlnumChars rng (k + 1) n
    (randChar (rng k) Charset.alphanumeric :: r.1, r.2)

/-- The tail of generateId's fixed-length mode: either format with the separator (JS
truthiness: a supplied non-empty separator) or return the raw string; k is the count of
rng values consumed. -/
def finishFixed (options : GenerateOptions) (groups groupSize : ℕ) (charset : Charset)
    (full : List Char) (k : ℕ) : Option (List Char) × ℕ :=
  if options.separator.getD [] ≠ [] then
    match formatId full ⟨some groups, some groupSize, options.separator, some charset⟩ with
    | some s => (some s, k)
    | Option.none => (Option.none, k)
  else (some full, k)

/-- The fixed-length (no pattern) mode of generateId (src/index.ts). The guard
options.totalLength && options.separator && ... uses JS truthiness, so totalLength 0 and
separator "" do not trigger the conflict error. The first component none models a thrown
error; the second component counts consumed rng values. -/
def generateFixed (options : GenerateOptions) (rng : ℕ → ℚ) : Option (List Char) × ℕ :=
  let charset := options.charset.getD Charset.numeric
  let algo := options.algorithm.getD Algorithm.none
  let groups := options.groups.getD 4
  let groupSize := options.groupSize.getD 4
  let total := options.totalLength.getD (groups * groupSize)
  if total < 2 then (Option.none, 0)
  else if options.totalLength.getD 0 ≠ 0 ∧ options.separator.getD [] ≠ [] ∧
      options.totalLength.getD 0 ≠ groups * groupSize then (Option.none, 0)
  else if algo = Algorithm.luhn ∧ charset ≠ Charset.numeric then (Option.none, 0)
  else if algo = Algorithm.mod36 ∧ charset ≠ Charset.alphanumeric then (Option.none, 0)
  else
    let bodyLen := if algo ≠ Algorithm.none then total - 1 else total
    let br := if charset = Charset.numeric then genNumericBody rng 0 bodyLen
              else genAlnumChars rng 0 bodyLen
    match algo with
    | Algorithm.none => finishFixed options groups groupSize charset br.1 br.2
    | Algorithm.luhn =>
      match luhnChecksumDigit br.1 with
      | some d => finishFixed options groups groupSize charset (br.1 ++ jsIntStr (d : ℤ)) br.2
      | Option.none => (Option.none, br.2)
    | Algorithm.mod36 =>
      match mod36CheckChar br.1 with
      | some c => finishFixed options groups groupSize charset (br.1 ++ [c]) br.2
      | Option.none => (Option.none, br.2)

/-- generateId from src/index.ts, with the count of consumed rng values threaded through
(first component none models a thrown error). Pattern mode is entered when the pattern
option is a non-empty string whose trim is non-empty; a checksum algorithm requires the
pattern to contain a '#', the non-checksum '#' slots are filled from the rng, the
checksum body is collected from those slots only, and the computed check string is
spliced into the checksum slot. -/
def generateIdCore (options : GenerateOptions) (rng : ℕ → ℚ) : Option (List Char) × ℕ :=
  let charset := options.charset.getD Charset.numeric
  let algo := options.algorithm.getD Algorithm.none
  let rawPat := options.pattern.getD []
  if rawPat ≠ [] ∧ jsTrim rawPat ≠ [] then
    let pattern := jsTrim rawPat
    let hashPos := lastHashIndex pattern
    if algo ≠ Algorithm.none ∧ hashPos = Option.none then (Option.none, 0)
    else
      let fr := fillPattern rng charset (algo ≠ Algorithm.none) hashPos pattern 0 0
      if algo = Algorithm.none then (some fr.1, fr.2)
      else
        let hp := hashPos.getD 0
        let body := extractBody pattern fr.1 0 hp
        match algo with
        | Algorithm.luhn =>
          if charset ≠ Charset.numeric then (Option.none, fr.2)
          else
            match luhnChecksumDigit body with
            | some d => (some (injectCheck hp (jsIntStr (d : ℤ)) fr.1 0), fr.2)
            | Option.none => (Option.none, fr.2)
        | Algorithm.mod36 =>
          if charset ≠ Charset.alphanumeric then (Option.none, fr.2)
          else
            match mod36CheckChar body with
            | some c => (some (injectCheck hp [c] fr.1 0), fr.2)
            | Option.none => (Option.none, fr.2)
        | Algorithm.none => (Option.none, fr.2)
  else generateFixed options rng

/-- generateId from src/index.ts: just the result (none models a thrown error). -/
def generateId (options : GenerateOptions) (rng : ℕ → ℚ) : Option (List Char) :=
  (generateIdCore options rng).1

/-- validateId from src/index.ts: none models a thrown error (reachable only through
mod36CheckChar on an empty reconstructed checksum body); otherwise some of the boolean
verdict. -/
def validateId (input : List Char) (opts : ValidateOptions) : Option Bool :=
  let groups := opts.groups.getD 4
  let groupSize := opts.groupSize.getD 4
  let expected := opts.totalLength.getD (groups * groupSize)
  let charset := opts.charset.getD Charset.numeric
  let algo := opts.algorithm.getD Algorithm.none
  let pattern := (opts.pattern.map jsTrim).getD []
  if pattern ≠ [] then
    if algo = Algorithm.none then some (patternMatch pattern charset input)
    else
      match lastHashIndex pattern with
      | Option.none => some false
      | some hashPos =>
        if !(patternMatch pattern charset input) then some false
        else
          let checkChar := input.getD hashPos 'u'
          let body := extractBody pattern input 0 hashPos
          match algo with
          | Algorithm.luhn =>
            if charset ≠ Charset.numeric then some false
            else if !(!body.isEmpty && body.all Char.isDigit) then some false
            else
              match luhnChecksumDigit body with
              | some d => some (jsIntStr (d : ℤ) == [checkChar])
              | Option.none => Option.none
          | Algorithm.mod36 =>
            if charset ≠ Charset.alphanumeric then some false
            else
              match mod36CheckChar (body.map Char.toUpper) with
              | some c => some (c == Char.toUpper checkChar)
              | Option.none => Option.none
          | Algorithm.none => some false
  else
    let normalized := mapToCharset input charset
    if normalized.length ≠ expected then some false
    else
      match algo with
      | Algorithm.luhn =>
        if !(!normalized.isEmpty && normalized.all Char.isDigit) then some false
        else some (luhnValidate normalized)
      | Algorithm.mod36 =>
        if !(!normalized.isEmpty && normalized.all isBase36) then some false
        else some (mod36Validate normalized)
      | Algorithm.none =>
        some (if charset = Charset.numeric then !normalized.isEmpty && normalized.all Char.isDigit
              else !normalized.isEmpty && normalized.all isBase36)

end IdKit
namespace IdKit

/-! ### Character and alphabet facts -/

lemma isDigit_toNat {c : Char} : c.isDigit = true ↔ 48 ≤ c.toNat ∧ c.toNat ≤ 57 := by
  simp only [Char.isDigit, Bool.and_eq_true, decide_eq_true_eq]
  exact Iff.rfl

lemma isBase36_toNat {c : Char} :
    isBase36 c = true ↔ (48 ≤ c.toNat ∧ c.toNat ≤ 57) ∨ (65 ≤ c.toNat ∧ c.toNat ≤ 90) := by
  simp only [isBase36, Char.isDigit, Bool.or_eq_true, Bool.and_eq_true, decide_eq_true_eq]
  exact or_congr Iff.rfl Iff.rfl

lemma char_eq_of_toNat {c d : Char} (h : c.toNat = d.toNat) : c = d := by
  have hc := Char.ofNat_toNat c
  have hd := Char.ofNat_toNat d
  rw [← hc, ← hd, h]

lemma isDigit_of_mem_NUM {c : Char} (h : c ∈ ALPHABET_NUM) : c.isDigit = true := by
  have hall : ∀ x ∈ ALPHABET_NUM, x.isDigit = true := by decide
  exact hall c h

lemma isBase36_of_mem_BASE36 {c : Char} (h : c ∈ ALPHABET_BASE36) : isBase36 c = true := by
  have hall : ∀ x ∈ ALPHABET_BASE36, isBase36 x = true := by decide
  exact hall c h

lemma toUpper_of_mem_BASE36 {c : Char} (h : c ∈ ALPHABET_BASE36) : c.toUpper = c := by
  have hall : ∀ x ∈ ALPHABET_BASE36, x.toUpper = x := by decide
  exact hall c h

lemma mem_NUM_of_isDigit {c : Char} (h : c.isDigit = true) : c ∈ ALPHABET_NUM := by
  obtain ⟨h1, h2⟩ := isDigit_toNat.mp h
  have hofn := Char.ofNat_toNat c
  generalize hg : c.toNat = n at h1 h2 hofn
  interval_cases n <;> (rw [← hofn]; decide)

lemma mem_BASE36_of_isBase36 {c : Char} (h : isBase36 c = true) : c ∈ ALPHABET_BASE36 := by
  have hofn := Char.ofNat_toNat c
  rcases isBase36_toNat.mp h with ⟨h1, h2⟩ | ⟨h1, h2⟩ <;>
    (generalize hg : c.toNat = n at h1 h2 hofn; interval_cases n <;> (rw [← hofn]; decide))

lemma toUpper_of_isBase36 {c : Char} (h : isBase36 c = true) : c.toUpper = c :=
  toUpper_of_mem_BASE36 (mem_BASE36_of_isBase36 h)

lemma digitVal_inj {c d : Char} (hc : c.isDigit = true) (hd : d.isDigit = true)
    (h : digitVal c = digitVal d) : c = d := by
  obtain ⟨hc1, _⟩ := isDigit_toNat.mp hc
  obtain ⟨hd1, _⟩ := isDigit_toNat.mp hd
  refine char_eq_of_toNat ?_
  unfold digitVal at h
  omega

/-! ### Floor bounds for rng draws in [0,1) -/

lemma floorMul_bounds {q : ℚ} (h0 : 0 ≤ q) (h1 : q < 1) {n : ℕ} (hn : 0 < n) :
    0 ≤ ⌊q * (n : ℚ)⌋ ∧ ⌊q * (n : ℚ)⌋ < (n : ℤ) := by
  have hnq : (0 : ℚ) < (n : ℚ) := by exact_mod_cast hn
  constructor
  · exact Int.floor_nonneg.mpr (mul_nonneg h0 (le_of_lt hnq))
  · exact Int.floor_lt.mpr (by push_cast; exact (mul_lt_iff_lt_one_left hnq).mpr h1)

lemma randChar_numeric_mem {q : ℚ} (h0 : 0 ≤ q) (h1 : q < 1) :
    randChar q Charset.numeric ∈ ALPHABET_NUM := by
  have hb := floorMul_bounds h0 h1 (n := ALPHABET_NUM.length) (by decide)
  show listAtD ALPHABET_NUM ⌊q * (ALPHABET_NUM.length : ℚ)⌋ 'u' ∈ ALPHABET_NUM
  unfold listAtD
  rw [if_pos hb.1, List.getD_eq_getElem _ _ (by omega)]
  exact List.getElem_mem _

lemma randChar_alnum_mem {q : ℚ} (h0 : 0 ≤ q) (h1 : q < 1) :
    randChar q Charset.alphanumeric ∈ ALPHABET_BASE36 := by
  have hb := floorMul_bounds h0 h1 (n := ALPHABET_BASE36.length) (by decide)
  show listAtD ALPHABET_BASE36 ⌊q * (ALPHABET_BASE36.length : ℚ)⌋ 'u' ∈ ALPHABET_BASE36
  unfold listAtD
  rw [if_pos hb.1, List.getD_eq_getElem _ _ (by omega)]
  exact List.getElem_mem _

/-! ### Digit strings -/

lemma jsIntStr_digit {i : ℤ} (h0 : 0 ≤ i) (h9 : i < 10) :
    jsIntStr i = [Char.ofNat (48 + i.toNat)] := by
  interval_cases i <;> decide

lemma digitChar_props {n : ℕ} (h : n ≤ 9) :
    Char.ofNat (48 + n) ∈ ALPHABET_NUM ∧ (Char.ofNat (48 + n)).isDigit = true ∧
      digitVal (Char.ofNat (48 + n)) = n := by
  interval_cases n <;> refine ⟨by decide, by decide, by decide⟩


/-! ### mapToCharset -/

/-- The allowed alphabet of a charset (the local `allowed` of mapToCharset). -/
def alphabetOf (cs : Charset) : List Char :=
  if cs = Charset.alphanumeric then ALPHABET_BASE36 else ALPHABET_NUM

lemma contains_iff_mem {l : List Char} {c : Char} : l.contains c = true ↔ c ∈ l :=
  List.elem_iff

lemma mapToCharset_numeric_def (l : List Char) :
    mapToCharset l Charset.numeric = l.filter (fun ch => ALPHABET_NUM.contains ch) := rfl

lemma mapToCharset_alnum_def (l : List Char) :
    mapToCharset l Charset.alphanumeric =
      (l.map Char.toUpper).filter (fun ch => ALPHABET_BASE36.contains ch) := rfl

lemma mapToCharset_append (a b : List Char) (cs : Charset) :
    mapToCharset (a ++ b) cs = mapToCharset a cs ++ mapToCharset b cs := by
  cases cs <;>
    simp [mapToCharset_numeric_def, mapToCharset_alnum_def, List.filter_append]

lemma mem_alphabet_of_mem_mapToCharset {c : Char} {l : List Char} {cs : Charset}
    (h : c ∈ mapToCharset l cs) : c ∈ alphabetOf cs := by
  cases cs
  · rw [mapToCharset_numeric_def] at h
    exact contains_iff_mem.mp (List.of_mem_filter h)
  · rw [mapToCharset_alnum_def] at h
    exact contains_iff_mem.mp (List.of_mem_filter h)

lemma mapToCharset_id_of_mem {l : List Char} {cs : Charset}
    (h : ∀ c ∈ l, c ∈ alphabetOf cs) : mapToCharset l cs = l := by
  cases cs
  · rw [mapToCharset_numeric_def]
    exact List.filter_eq_self.mpr (fun a ha => contains_iff_mem.mpr (h a ha))
  · rw [mapToCharset_alnum_def]
    have hmap : l.map Char.toUpper = l := by
      have : l.map Char.toUpper = l.map id :=
        List.map_congr_left (fun a ha => toUpper_of_mem_BASE36 (h a ha))
      simpa using this
    rw [hmap]
    exact List.filter_eq_self.mpr (fun a ha => contains_iff_mem.mpr (h a ha))

lemma mapToCharset_single (c : Char) (cs : Charset) :
    mapToCharset [c] cs = [] ∨
      ∃ d, mapToCharset [c] cs = [d] ∧ d ∈ alphabetOf cs := by
  rcases hm : mapToCharset [c] cs with _ | ⟨d, rest⟩
  · exact Or.inl rfl
  · refine Or.inr ⟨d, ?_, ?_⟩
    · have hlen : (mapToCharset [c] cs).length ≤ 1 := by
        cases cs
        · rw [mapToCharset_numeric_def]
          simpa using List.length_filter_le _ [c]
        · rw [mapToCharset_alnum_def]
          simpa using List.length_filter_le _ ([c].map Char.toUpper)
      rw [hm] at hlen
      simp at hlen
      rw [hlen]
    · exact mem_alphabet_of_mem_mapToCharset (by rw [hm]; exact List.mem_cons_self d rest)

lemma isDigit_of_mem_alphabet_numeric {c : Char} (h : c ∈ alphabetOf Charset.numeric) :
    c.isDigit = true := isDigit_of_mem_NUM (by simpa [alphabetOf] using h)

lemma isBase36_of_mem_alphabet_alnum {c : Char} (h : c ∈ alphabetOf Charset.alphanumeric) :
    isBase36 c = true := isBase36_of_mem_BASE36 (by simpa [alphabetOf] using h)

/-! ### Luhn characterization -/

/-- Double-and-reduce step of the Luhn scheme. -/
def luhnDouble (n : ℕ) : ℕ := if 9 < n * 2 then n * 2 - 9 else n * 2

/-- Contribution of one (position, character) pair when the positions whose index is even
are doubled. -/
def luhnContrib (p : ℕ × Char) : ℕ :=
  if p.1 % 2 = 0 then luhnDouble (digitVal p.2) else digitVal p.2

/-- Position-indexed Luhn sum: positions are counted from the right end of the body
starting at `par`, and the characters at even position indexes are doubled. With par = 0
this doubles the body positions 0,2,4,... from the right (what the code does); with
par = 1 it doubles the body positions 1,3,5,... from the right (what the specification
sentence describes). -/
def luhnPosSum (par : ℕ) (body : List Char) : ℕ :=
  ((body.reverse.enumFrom par).map luhnContrib).sum

lemma parity_flip (n : ℕ) : decide ((n + 1) % 2 = 0) = !decide (n % 2 = 0) := by
  rcases Nat.mod_two_eq_zero_or_one n with h | h <;> simp [Nat.add_mod, h]

lemma luhnSumFromRight_eq_posSum :
    ∀ (l : List Char) (n : ℕ), l.all Char.isDigit = true →
      luhnSumFromRight l (decide (n % 2 = 0)) =
        some (((l.enumFrom n).map luhnContrib).sum) := by
  intro l
  induction l with
  | nil => intro n _; simp [luhnSumFromRight]
  | cons c rest ih =>
    intro n hall
    simp only [List.all_cons, Bool.and_eq_true] at hall
    obtain ⟨hc, hrest⟩ := hall
    obtain ⟨hc1, hc2⟩ := isDigit_toNat.mp hc
    simp only [luhnSumFromRight]
    rw [if_neg (by omega), ← parity_flip, ih (n + 1) hrest]
    simp only [List.enumFrom, List.map_cons, List.sum_cons, Option.map_some, Option.some.injEq]
    unfold luhnContrib luhnDouble digitVal
    by_cases hpar : n % 2 = 0 <;> simp [hpar] <;> omega

lemma luhnSumFromRight_none :
    ∀ (l : List Char) (b : Bool), l.all Char.isDigit = false →
      luhnSumFromRight l b = Option.none := by
  intro l
  induction l with
  | nil => intro b h; simp at h
  | cons c rest ih =>
    intro b h
    simp only [List.all_cons, Bool.and_eq_false_iff] at h
    simp only [luhnSumFromRight]
    rcases h with h | h
    · rw [if_pos]
      have := (not_iff_not.mpr (isDigit_toNat (c := c))).mp (by simp [h])
      omega
    · by_cases hguard : c.toNat < 48 ∨ 57 < c.toNat
      · rw [if_pos hguard]
      · rw [if_neg hguard, ih _ h]
        rfl

lemma luhn_formula (s : ℕ) : (if s % 10 = 0 then 0 else 10 - s % 10) = (10 - s % 10) % 10 := by
  have h10 := Nat.mod_lt s (show 0 < 10 by norm_num)
  by_cases h : s % 10 = 0
  · simp [h]
  · rw [if_neg h]
    omega

lemma luhnChecksumDigit_eq_of_digits {body : List Char} (h : body.all Char.isDigit = true) :
    luhnChecksumDigit body = some ((10 - luhnPosSum 0 body % 10) % 10) := by
  unfold luhnChecksumDigit luhnPosSum
  have hrev : body.reverse.all Char.isDigit = true := by rwa [List.all_reverse]
  have := luhnSumFromRight_eq_posSum body.reverse 0 hrev
  rw [show decide ((0 : ℕ) % 2 = 0) = true from rfl] at this
  rw [this]
  simp only [Option.map_some', Option.some.injEq]
  exact luhn_formula _

lemma luhnChecksumDigit_none {body : List Char} (h : body.all Char.isDigit = false) :
    luhnChecksumDigit body = Option.none := by
  unfold luhnChecksumDigit
  rw [luhnSumFromRight_none body.reverse true (by rwa [List.all_reverse])]
  rfl

lemma luhnChecksumDigit_le_9 {body : List Char} {d : ℕ}
    (h : luhnChecksumDigit body = some d) : d ≤ 9 := by
  unfold luhnChecksumDigit at h
  rcases hs : luhnSumFromRight body.reverse true with _ | s
  · rw [hs] at h
    exact absurd h (by simp)
  · rw [hs] at h
    simp only [Option.map_some', Option.some.injEq] at h
    split at h <;> omega

lemma luhnValidate_concat {body : List Char} {d : ℕ} (hb : body.all Char.isDigit = true)
    (hne : body ≠ []) (hcs : luhnChecksumDigit body = some d) :
    luhnValidate (body ++ [Char.ofNat (48 + d)]) = true := by
  have hd9 := luhnChecksumDigit_le_9 hcs
  obtain ⟨hmem, hdig, hval⟩ := digitChar_props hd9
  unfold luhnValidate
  rw [if_pos ?_]
  · rw [List.dropLast_concat, hcs, List.getLastD_concat, hval]
    simp
  · constructor
    · have := List.length_pos.mpr hne
      simp [List.length_append]
      omega
    · rw [List.all_append, hb]
      simpa using hdig

/-! ### mod36 facts -/

lemma mod36CheckChar_some {body : List Char} (hne : body ≠ []) (hb : body.all isBase36 = true) :
    ∃ c, mod36CheckChar body = some c ∧ c ∈ ALPHABET_BASE36 := by
  unfold mod36CheckChar
  rw [if_pos ⟨hne, hb⟩]
  refine ⟨_, rfl, ?_⟩
  have hlt : (36 - ((body.map (fun ch => ALPHABET_BASE36.indexOf ch)).sum) % 36) % 36 <
      ALPHABET_BASE36.length := by
    have := Nat.mod_lt (36 - ((body.map (fun ch => ALPHABET_BASE36.indexOf ch)).sum) % 36)
      (show 0 < 36 by norm_num)
    have hlen : ALPHABET_BASE36.length = 36 := by decide
    omega
  rw [List.getD_eq_getElem _ _ hlt]
  exact List.getElem_mem _

lemma mod36Validate_concat {body : List Char} {c : Char} (hne : body ≠ [])
    (hb : body.all isBase36 = true) (hc : mod36CheckChar body = some c) :
    mod36Validate (body ++ [c]) = true := by
  have hmem : c ∈ ALPHABET_BASE36 := by
    obtain ⟨c', hc', hm⟩ := mod36CheckChar_some hne hb
    rw [hc] at hc'
    exact (Option.some.injEq _ _ ▸ hc') ▸ hm
  unfold mod36Validate
  rw [if_pos ?_]
  · rw [List.dropLast_concat, hc, List.getLastD_concat]
    simp
  · constructor
    · have := List.length_pos.mpr hne
      simp [List.length_append]
      omega
    · rw [List.all_append, hb]
      simpa using isBase36_of_mem_BASE36 hmem


/-! ### Trim and lastHashIndex -/

/-- Removing trailing whitespace (the second half of String.prototype.trim). -/
def trimEnd (l : List Char) : List Char := (l.reverse.dropWhile isJsSpace).reverse

lemma jsTrim_eq_trimEnd (s : List Char) : jsTrim s = trimEnd (s.dropWhile isJsSpace) := rfl

lemma dropWhile_idem (p : Char → Bool) (l : List Char) :
    List.dropWhile p (List.dropWhile p l) = List.dropWhile p l := by
  induction l with
  | nil => simp
  | cons a t ih =>
    rw [List.dropWhile_cons]
    by_cases h : p a = true
    · rw [if_pos h]; exact ih
    · rw [if_neg h, List.dropWhile_cons, if_neg h]

lemma dropWhile_head_false {p : Char → Bool} {l : List Char} (h : List.dropWhile p l = l) :
    ∀ a t, l = a :: t → p a = false := by
  intro a t hl
  subst hl
  by_cases hpa : p a = true
  · rw [List.dropWhile_cons, if_pos hpa] at h
    have hle := (List.dropWhile_suffix p (l := t)).length_le
    rw [h] at hle
    simp at hle
  · simpa using hpa

lemma trimEnd_prefix (u : List Char) : ∃ t, trimEnd u ++ t = u := by
  obtain ⟨pre, hpre⟩ := List.dropWhile_suffix isJsSpace (l := u.reverse)
  refine ⟨pre.reverse, ?_⟩
  show (List.dropWhile isJsSpace u.reverse).reverse ++ pre.reverse = u
  rw [← List.reverse_append, hpre, List.reverse_reverse]

lemma trimEnd_idem (u : List Char) : trimEnd (trimEnd u) = trimEnd u := by
  unfold trimEnd
  rw [List.reverse_reverse, dropWhile_idem]

lemma jsTrim_idem (s : List Char) : jsTrim (jsTrim s) = jsTrim s := by
  rw [jsTrim_eq_trimEnd]
  set u := s.dropWhile isJsSpace with hu
  have hdw : List.dropWhile isJsSpace u = u := by rw [hu, dropWhile_idem]
  have hstep : List.dropWhile isJsSpace (trimEnd u) = trimEnd u := by
    rcases htr : trimEnd u with _ | ⟨a, t'⟩
    · simp
    · obtain ⟨t, hpref⟩ := trimEnd_prefix u
      rw [htr] at hpref
      have hhead : isJsSpace a = false := by
        refine dropWhile_head_false hdw a (t' ++ t) ?_
        rw [← hpref]
        simp
      rw [List.dropWhile_cons, if_neg (by simp [hhead])]
  rw [jsTrim_eq_trimEnd, hstep, trimEnd_idem]

lemma lastHashIndexAux_some_acc :
    ∀ (l : List Char) (i j : ℕ), ∃ k, lastHashIndexAux l i (some j) = some k := by
  intro l
  induction l with
  | nil => intro i j; exact ⟨j, rfl⟩
  | cons c rest ih =>
    intro i j
    simp only [lastHashIndexAux]
    by_cases hc : c = '#'
    · rw [if_pos hc]; exact ih (i + 1) i
    · rw [if_neg hc]; exact ih (i + 1) j

lemma lastHashIndexAux_some_of_hash :
    ∀ (l : List Char) (i : ℕ) (acc : Option ℕ), '#' ∈ l →
      ∃ k, lastHashIndexAux l i acc = some k := by
  intro l
  induction l with
  | nil => intro i acc h; simp at h
  | cons c rest ih =>
    intro i acc h
    simp only [lastHashIndexAux]
    by_cases hc : c = '#'
    · rw [if_pos hc]; exact lastHashIndexAux_some_acc rest (i + 1) i
    · rw [if_neg hc]
      rcases List.mem_cons.mp h with h' | h'
      · exact absurd h'.symm hc
      · exact ih (i + 1) acc h'

lemma lastHashIndexAux_sound :
    ∀ (l : List Char) (i : ℕ) (acc : Option ℕ) (j : ℕ),
      lastHashIndexAux l i acc = some j →
      acc = some j ∨ (i ≤ j ∧ j < i + l.length ∧ l.getD (j - i) ' ' = '#') := by
  intro l
  induction l with
  | nil => intro i acc j h; exact Or.inl h
  | cons c rest ih =>
    intro i acc j h
    simp only [lastHashIndexAux] at h
    rcases ih (i + 1) _ j h with hacc | ⟨h1, h2, h3⟩
    · by_cases hc : c = '#'
      · rw [if_pos hc] at hacc
        have hij : j = i := by
          have := Option.some.injEq i j ▸ hacc
          simpa using this.symm
        subst hij
        refine Or.inr ⟨le_refl j, by simp only [List.length_cons]; omega, ?_⟩
        simpa [Nat.sub_self] using hc
      · rw [if_neg hc] at hacc
        exact Or.inl hacc
    · refine Or.inr ⟨by omega, by simp only [List.length_cons]; omega, ?_⟩
      have hji : j - i = (j - (i + 1)) + 1 := by omega
      rw [hji, List.getD_cons_succ]
      exact h3

lemma lastHashIndex_spec {p : List Char} (ht : jsTrim p = p) {hp : ℕ}
    (h : lastHashIndex p = some hp) : hp < p.length ∧ p.getD hp ' ' = '#' := by
  unfold lastHashIndex at h
  rw [ht] at h
  rcases lastHashIndexAux_sound p 0 Option.none hp h with habs | ⟨_, h2, h3⟩
  · exact absurd habs (by simp)
  · refine ⟨by omega, by simpa using h3⟩

lemma lastHashIndex_some_of_hash {p : List Char} (ht : jsTrim p = p) (h : '#' ∈ p) :
    ∃ hp, lastHashIndex p = some hp := by
  unfold lastHashIndex
  rw [ht]
  exact lastHashIndexAux_some_of_hash p 0 Option.none h


/-! ### List position utilities -/

lemma getD_set (w : List Char) (n j : ℕ) (c d : Char) :
    (w.set n c).getD j d = if j = n ∧ n < w.length then c else w.getD j d := by
  induction w generalizing n j with
  | nil => simp
  | cons a t ih =>
    cases n with
    | zero =>
      cases j with
      | zero => simp
      | succ j => simp
    | succ n =>
      cases j with
      | zero => simp
      | succ j =>
        have hco : (j + 1 = n + 1 ∧ n + 1 < t.length + 1) ↔ (j = n ∧ n < t.length) := by omega
        simp only [List.set_cons_succ, List.getD_cons_succ, List.length_cons]
        rw [ih, if_congr hco rfl rfl]

lemma set_last_eq_dropLast_concat :
    ∀ {w : List Char}, w ≠ [] → ∀ (c : Char), w.set (w.length - 1) c = w.dropLast ++ [c] := by
  intro w
  induction w with
  | nil => intro h; exact absurd rfl h
  | cons a t ih =>
    intro _ c
    cases t with
    | nil => rfl
    | cons b t2 =>
      have hlen : (a :: b :: t2).length - 1 = ((b :: t2).length - 1) + 1 := by
        simp [List.length_cons]
      rw [hlen, List.set_cons_succ, ih (by simp) c]
      rfl

lemma getLastD_irrel {w : List Char} (hne : w ≠ []) (d d' : Char) :
    w.getLastD d = w.getLastD d' := by
  cases w with
  | nil => exact absurd rfl hne
  | cons a t => rw [List.getLastD_cons, List.getLastD_cons]

/-! ### Pattern matcher characterization -/

lemma patternMatch_iff :
    ∀ (p : List Char) (cs : Charset) (w : List Char),
      patternMatch p cs w = true ↔
        (w.length = p.length ∧ ∀ j, j < p.length →
          (if p.getD j ' ' = '#' then classMember cs (w.getD j ' ') = true
           else w.getD j ' ' = p.getD j ' ')) := by
  intro p
  induction p with
  | nil =>
    intro cs w
    cases w <;> simp [patternMatch]
  | cons pc ps ih =>
    intro cs w
    cases w with
    | nil => simp [patternMatch]
    | cons c rest =>
      simp only [patternMatch, Bool.and_eq_true, ih cs rest, List.length_cons]
      constructor
      · rintro ⟨hhead, hlen, htail⟩
        refine ⟨by omega, ?_⟩
        intro j hj
        cases j with
        | zero =>
          simp only [List.getD_cons_zero]
          by_cases hpc : pc = '#'
          · rw [if_pos hpc]
            rw [if_pos hpc] at hhead
            exact hhead
          · rw [if_neg hpc]
            rw [if_neg hpc] at hhead
            exact (beq_iff_eq.mp hhead).symm
        | succ j =>
          simp only [List.getD_cons_succ]
          exact htail j (by omega)
      · rintro ⟨hlen, hall⟩
        have hhead := hall 0 (by omega)
        simp only [List.getD_cons_zero] at hhead
        refine ⟨?_, by omega, ?_⟩
        · by_cases hpc : pc = '#'
          · rw [if_pos hpc]
            rw [if_pos hpc] at hhead
            exact hhead
          · rw [if_neg hpc]
            rw [if_neg hpc] at hhead
            exact beq_iff_eq.mpr hhead.symm
        · intro j hj
          have := hall (j + 1) (by omega)
          simpa only [List.getD_cons_succ] using this


/-! ### extractBody -/

lemma extractBody_congr :
    ∀ (p w1 w2 : List Char) (i hp : ℕ),
      w1.length = w2.length →
      (∀ j, j < w1.length → i + j ≠ hp → w1.getD j ' ' = w2.getD j ' ') →
      extractBody p w1 i hp = extractBody p w2 i hp := by
  intro p
  induction p with
  | nil => intro w1 w2 i hp _ _; rfl
  | cons pc ps ih =>
    intro w1 w2 i hp hlen hagree
    cases w1 with
    | nil =>
      cases w2 with
      | nil => rfl
      | cons b t2 => simp at hlen
    | cons a t1 =>
      cases w2 with
      | nil => simp at hlen
      | cons b t2 =>
        have hlen' : t1.length = t2.length := by simpa using hlen
        have htail : ∀ j, j < t1.length → (i + 1) + j ≠ hp → t1.getD j ' ' = t2.getD j ' ' := by
          intro j hj hnej
          have := hagree (j + 1) (by simp only [List.length_cons]; omega) (by omega)
          simpa only [List.getD_cons_succ] using this
        simp only [extractBody]
        by_cases hc : pc = '#' ∧ i ≠ hp
        · rw [if_pos hc, if_pos hc, ih t1 t2 (i + 1) hp hlen' htail]
          have hhead : a = b := by
            have := hagree 0 (by simp only [List.length_cons]; omega) (by omega)
            simpa only [List.getD_cons_zero] using this
          rw [hhead]
        · rw [if_neg hc, if_neg hc]
          exact ih t1 t2 (i + 1) hp hlen' htail

lemma extractBody_mem :
    ∀ (p b : List Char) (i hp : ℕ) (c : Char), c ∈ extractBody p b i hp →
      ∃ j, j < p.length ∧ j < b.length ∧ p.getD j ' ' = '#' ∧ i + j ≠ hp ∧
        c = b.getD j ' ' := by
  intro p
  induction p with
  | nil =>
    intro b i hp c h
    rw [show extractBody [] b i hp = [] from rfl] at h
    simp at h
  | cons pc ps ih =>
    intro b i hp c h
    cases b with
    | nil =>
      rw [show extractBody (pc :: ps) [] i hp = [] from rfl] at h
      simp at h
    | cons bc bs =>
      simp only [extractBody] at h
      by_cases hc : pc = '#' ∧ i ≠ hp
      · rw [if_pos hc] at h
        rcases List.mem_cons.mp h with heq | h'
        · refine ⟨0, by simp, by simp, by simpa using hc.1, by simpa using hc.2, by simpa using heq⟩
        · obtain ⟨j, hj1, hj2, hj3, hj4, hj5⟩ := ih bs (i + 1) hp c h'
          refine ⟨j + 1, by simp only [List.length_cons]; omega,
            by simp only [List.length_cons]; omega,
            by simpa only [List.getD_cons_succ] using hj3, by omega,
            by simpa only [List.getD_cons_succ] using hj5⟩
      · rw [if_neg hc] at h
        obtain ⟨j, hj1, hj2, hj3, hj4, hj5⟩ := ih bs (i + 1) hp c h
        refine ⟨j + 1, by simp only [List.length_cons]; omega,
          by simp only [List.length_cons]; omega,
          by simpa only [List.getD_cons_succ] using hj3, by omega,
          by simpa only [List.getD_cons_succ] using hj5⟩

lemma extractBody_ne_nil :
    ∀ (p b : List Char) (i hp : ℕ),
      p.length ≤ b.length →
      (∃ j, j < p.length ∧ p.getD j ' ' = '#' ∧ i + j ≠ hp) →
      extractBody p b i hp ≠ [] := by
  intro p
  induction p with
  | nil =>
    rintro b i hp _ ⟨j, hj, _, _⟩
    simp at hj
  | cons pc ps ih =>
    rintro b i hp hlen ⟨j, hj1, hj2, hj3⟩
    cases b with
    | nil => simp at hlen
    | cons bc bs =>
      simp only [extractBody]
      by_cases hc : pc = '#' ∧ i ≠ hp
      · rw [if_pos hc]
        simp
      · rw [if_neg hc]
        have hj0 : j ≠ 0 := by
          intro h0
          subst h0
          simp only [List.getD_cons_zero] at hj2
          simp only [Nat.add_zero] at hj3
          exact hc ⟨hj2, hj3⟩
        refine ih bs (i + 1) hp (by simpa using hlen) ⟨j - 1, by simp only [List.length_cons] at hj1; omega, ?_, by omega⟩
        have : j = (j - 1) + 1 := by omega
        rw [this] at hj2
        simpa only [List.getD_cons_succ] using hj2

/-! ### fillPattern -/

/-- Number of rng-consuming slots of the pattern-fill loop from position i: the '#'
positions other than the checksum slot. -/
def slotCount (b : Bool) (hp : Option ℕ) (p : List Char) (i : ℕ) : ℕ :=
  match p with
  | [] => 0
  | c :: rest =>
    (if c = '#' ∧ ¬(b = true ∧ hp = some i) then 1 else 0) + slotCount b hp rest (i + 1)

lemma fillPattern_length (rng : ℕ → ℚ) (cs : Charset) (b : Bool) (hp : Option ℕ) :
    ∀ (p : List Char) (i k : ℕ), (fillPattern rng cs b hp p i k).1.length = p.length := by
  intro p
  induction p with
  | nil => intro i k; rfl
  | cons pc ps ih =>
    intro i k
    simp only [fillPattern]
    by_cases h1 : pc = '#'
    · rw [if_pos h1]
      by_cases h2 : b = true ∧ hp = some i
      · rw [if_pos h2]
        simp [ih]
      · rw [if_neg h2]
        simp [ih]
    · rw [if_neg h1]
      simp [ih]

lemma fillPattern_next (rng : ℕ → ℚ) (cs : Charset) (b : Bool) (hp : Option ℕ) :
    ∀ (p : List Char) (i k : ℕ), (fillPattern rng cs b hp p i k).2 = k + slotCount b hp p i := by
  intro p
  induction p with
  | nil => intro i k; rfl
  | cons pc ps ih =>
    intro i k
    simp only [fillPattern, slotCount]
    by_cases h1 : pc = '#'
    · rw [if_pos h1]
      by_cases h2 : b = true ∧ hp = some i
      · rw [if_pos h2, if_neg (by simp [h1, h2])]
        simp [ih]
      · rw [if_neg h2, if_pos ⟨h1, h2⟩]
        simp only [ih]
        omega
    · rw [if_neg h1, if_neg (by simp [h1])]
      simp [ih]

lemma fillPattern_getD (rng : ℕ → ℚ) (cs : Charset) (b : Bool) (hp : Option ℕ) :
    ∀ (p : List Char) (i k j : ℕ), j < p.length →
      ((p.getD j ' ' ≠ '#' →
          (fillPattern rng cs b hp p i k).1.getD j ' ' = p.getD j ' ') ∧
       (p.getD j ' ' = '#' →
          ((b = true ∧ hp = some (i + j) ∧ (fillPattern rng cs b hp p i k).1.getD j ' ' = '#') ∨
           (¬(b = true ∧ hp = some (i + j)) ∧
             ∃ m, (fillPattern rng cs b hp p i k).1.getD j ' ' = randChar (rng m) cs)))) := by
  intro p
  induction p with
  | nil => intro i k j hj; simp at hj
  | cons pc ps ih =>
    intro i k j hj
    simp only [fillPattern]
    cases j with
    | zero =>
      simp only [List.getD_cons_zero, Nat.add_zero]
      by_cases h1 : pc = '#'
      · rw [if_pos h1]
        refine ⟨fun hne => absurd h1 hne, fun _ => ?_⟩
        by_cases h2 : b = true ∧ hp = some i
        · rw [if_pos h2]
          exact Or.inl ⟨h2.1, h2.2, by simp⟩
        · rw [if_neg h2]
          exact Or.inr ⟨h2, ⟨k, by simp⟩⟩
      · rw [if_neg h1]
        exact ⟨fun _ => by simp, fun habs => absurd habs h1⟩
    | succ j =>
      have hj' : j < ps.length := by simp only [List.length_cons] at hj; omega
      simp only [List.getD_cons_succ]
      have harith : i + (j + 1) = (i + 1) + j := by omega
      rw [harith]
      by_cases h1 : pc = '#'
      · rw [if_pos h1]
        by_cases h2 : b = true ∧ hp = some i
        · rw [if_pos h2]
          have := ih (i + 1) k j hj'
          simpa only [List.getD_cons_succ] using this
        · rw [if_neg h2]
          have := ih (i + 1) (k + 1) j hj'
          simpa only [List.getD_cons_succ] using this
      · rw [if_neg h1]
        have := ih (i + 1) k j hj'
        simpa only [List.getD_cons_succ] using this

lemma fillPattern_congr (cs : Charset) (b : Bool) (hp : Option ℕ) :
    ∀ (p : List Char) (i k : ℕ) (rng1 rng2 : ℕ → ℚ),
      (∀ m, k ≤ m → m < k + slotCount b hp p i → rng1 m = rng2 m) →
      fillPattern rng1 cs b hp p i k = fillPattern rng2 cs b hp p i k := by
  intro p
  induction p with
  | nil => intro i k rng1 rng2 _; rfl
  | cons pc ps ih =>
    intro i k rng1 rng2 hagree
    simp only [fillPattern]
    by_cases h1 : pc = '#'
    · simp only [if_pos h1]
      by_cases h2 : b = true ∧ hp = some i
      · simp only [if_pos h2]
        have hslot : slotCount b hp (pc :: ps) i = slotCount b hp ps (i + 1) := by
          simp only [slotCount, if_neg (show ¬(pc = '#' ∧ ¬(b = true ∧ hp = some i)) by simp [h1, h2])]
          omega
        rw [ih (i + 1) k rng1 rng2 (fun m hm1 hm2 => hagree m hm1 (by omega))]
      · simp only [if_neg h2]
        have hslot : slotCount b hp (pc :: ps) i = 1 + slotCount b hp ps (i + 1) := by
          simp only [slotCount, if_pos (⟨h1, h2⟩ : pc = '#' ∧ ¬(b = true ∧ hp = some i))]
        have hk : rng1 k = rng2 k := hagree k (le_refl k) (by omega)
        rw [hk, ih (i + 1) (k + 1) rng1 rng2 (fun m hm1 hm2 => hagree m (by omega) (by omega))]
    · simp only [if_neg h1]
      have hslot : slotCount b hp (pc :: ps) i = slotCount b hp ps (i + 1) := by
        simp only [slotCount, if_neg (show ¬(pc = '#' ∧ ¬(b = true ∧ hp = some i)) by simp [h1])]
        omega
      rw [ih (i + 1) k rng1 rng2 (fun m hm1 hm2 => hagree m hm1 (by omega))]

/-! ### injectCheck -/

lemma injectCheck_single :
    ∀ (built : List Char) (i hp : ℕ) (c : Char),
      (injectCheck hp [c] built i).length = built.length ∧
      (∀ j, j < built.length →
        (injectCheck hp [c] built i).getD j ' ' =
          if built.getD j ' ' = '#' ∧ i + j = hp then c else built.getD j ' ') := by
  intro built
  induction built with
  | nil => intro i hp c; exact ⟨rfl, fun j hj => by simp at hj⟩
  | cons a rest ih =>
    intro i hp c
    simp only [injectCheck]
    obtain ⟨ihlen, ihget⟩ := ih (i + 1) hp c
    by_cases h1 : a = '#' ∧ i = hp
    · rw [if_pos h1]
      constructor
      · simp [ihlen]
      · intro j hj
        cases j with
        | zero =>
          simp only [List.singleton_append, List.getD_cons_zero]
          rw [if_pos (by simpa using h1)]
        | succ j =>
          simp only [List.singleton_append, List.getD_cons_succ, List.length_cons] at *
          rw [ihget j (by omega)]
          have : (i + 1) + j = i + (j + 1) := by omega
          rw [this]
    · rw [if_neg h1]
      constructor
      · simp [ihlen]
      · intro j hj
        cases j with
        | zero =>
          simp only [List.singleton_append, List.getD_cons_zero]
          rw [if_neg (by simpa using h1)]
        | succ j =>
          simp only [List.singleton_append, List.getD_cons_succ, List.length_cons] at *
          rw [ihget j (by omega)]
          have : (i + 1) + j = i + (j + 1) := by omega
          rw [this]

/-! ### Fixed-length body generators -/

lemma floor10_bounds {q : ℚ} (h0 : 0 ≤ q) (h1 : q < 1) :
    0 ≤ ⌊q * (10 : ℚ)⌋ ∧ ⌊q * (10 : ℚ)⌋ < 10 := by
  have := floorMul_bounds h0 h1 (n := 10) (by norm_num)
  norm_num at this
  exact this

lemma floor9_bounds {q : ℚ} (h0 : 0 ≤ q) (h1 : q < 1) :
    0 ≤ ⌊q * (9 : ℚ)⌋ ∧ ⌊q * (9 : ℚ)⌋ < 9 := by
  have := floorMul_bounds h0 h1 (n := 9) (by norm_num)
  norm_num at this
  exact this

lemma genDigits_next (rng : ℕ → ℚ) : ∀ (n k : ℕ), (genDigits rng k n).2 = k + n := by
  intro n
  induction n with
  | zero => intro k; rfl
  | succ n ih =>
    intro k
    simp only [genDigits, ih]
    omega

lemma genDigits_spec (rng : ℕ → ℚ) (hr : ∀ i, 0 ≤ rng i ∧ rng i < 1) :
    ∀ (n k : ℕ), (genDigits rng k n).1.length = n ∧
      (∀ c ∈ (genDigits rng k n).1, c ∈ ALPHABET_NUM) := by
  intro n
  induction n with
  | zero => intro k; exact ⟨rfl, fun c hc => by simp [genDigits] at hc⟩
  | succ n ih =>
    intro k
    obtain ⟨hf0, hf1⟩ := floor10_bounds (hr k).1 (hr k).2
    have hstr := jsIntStr_digit hf0 hf1
    have htn : (⌊rng k * (10 : ℚ)⌋).toNat ≤ 9 := by omega
    obtain ⟨hmem, _, _⟩ := digitChar_props htn
    obtain ⟨ihlen, ihmem⟩ := ih (k + 1)
    constructor
    · simp [genDigits, hstr, ihlen]
    · intro c hc
      simp only [genDigits, hstr, List.singleton_append, List.mem_cons] at hc
      rcases hc with rfl | hc
      · exact hmem
      · exact ihmem c hc

lemma genDigits_congr (k n : ℕ) :
    ∀ (rng1 rng2 : ℕ → ℚ), (∀ m, k ≤ m → m < k + n → rng1 m = rng2 m) →
      genDigits rng1 k n = genDigits rng2 k n := by
  induction n generalizing k with
  | zero => intro rng1 rng2 _; rfl
  | succ n ih =>
    intro rng1 rng2 hagree
    simp only [genDigits]
    rw [hagree k (le_refl k) (by omega), ih (k + 1) rng1 rng2 (fun m h1 h2 => hagree m (by omega) (by omega))]

lemma genNumericBody_next (rng : ℕ → ℚ) {bodyLen : ℕ} (h : 1 ≤ bodyLen) (k : ℕ) :
    (genNumericBody rng k bodyLen).2 = k + bodyLen := by
  simp only [genNumericBody, genDigits_next]
  omega

lemma genNumericBody_spec (rng : ℕ → ℚ) (hr : ∀ i, 0 ≤ rng i ∧ rng i < 1)
    {bodyLen : ℕ} (h : 1 ≤ bodyLen) (k : ℕ) :
    (genNumericBody rng k bodyLen).1.length = bodyLen ∧
      (∀ c ∈ (genNumericBody rng k bodyLen).1, c ∈ ALPHABET_NUM) := by
  obtain ⟨hf0, hf1⟩ := floor9_bounds (hr k).1 (hr k).2
  have hstr := jsIntStr_digit (by omega : (0:ℤ) ≤ 1 + ⌊rng k * (9 : ℚ)⌋) (by omega)
  have htn : (1 + ⌊rng k * (9 : ℚ)⌋).toNat ≤ 9 := by omega
  obtain ⟨hmem, _, _⟩ := digitChar_props htn
  obtain ⟨hdlen, hdmem⟩ := genDigits_spec rng hr (bodyLen - 1) (k + 1)
  constructor
  · simp only [genNumericBody, hstr, List.singleton_append, List.length_cons, hdlen]
    omega
  · intro c hc
    simp only [genNumericBody, hstr, List.singleton_append, List.mem_cons] at hc
    rcases hc with rfl | hc
    · exact hmem
    · exact hdmem c hc

lemma genNumericBody_congr {bodyLen : ℕ} (k : ℕ) :
    ∀ (rng1 rng2 : ℕ → ℚ), (∀ m, k ≤ m → m < k + bodyLen → rng1 m = rng2 m) →
      1 ≤ bodyLen → genNumericBody rng1 k bodyLen = genNumericBody rng2 k bodyLen := by
  intro rng1 rng2 hagree h1
  simp only [genNumericBody]
  rw [hagree k (le_refl k) (by omega),
    genDigits_congr (k + 1) (bodyLen - 1) rng1 rng2 (fun m hm1 hm2 => hagree m (by omega) (by omega))]

lemma genAlnumChars_next (rng : ℕ → ℚ) : ∀ (n k : ℕ), (genAlnumChars rng k n).2 = k + n := by
  intro n
  induction n with
  | zero => intro k; rfl
  | succ n ih =>
    intro k
    simp only [genAlnumChars, ih]
    omega

lemma genAlnumChars_spec (rng : ℕ → ℚ) (hr : ∀ i, 0 ≤ rng i ∧ rng i < 1) :
    ∀ (n k : ℕ), (genAlnumChars rng k n).1.length = n ∧
      (∀ c ∈ (genAlnumChars rng k n).1, c ∈ ALPHABET_BASE36) := by
  intro n
  induction n with
  | zero => intro k; exact ⟨rfl, fun c hc => by simp [genAlnumChars] at hc⟩
  | succ n ih =>
    intro k
    obtain ⟨ihlen, ihmem⟩ := ih (k + 1)
    constructor
    · simp [genAlnumChars, ihlen]
    · intro c hc
      simp only [genAlnumChars, List.mem_cons] at hc
      rcases hc with rfl | hc
      · exact randChar_alnum_mem (hr k).1 (hr k).2
      · exact ihmem c hc

lemma genAlnumChars_congr (k n : ℕ) :
    ∀ (rng1 rng2 : ℕ → ℚ), (∀ m, k ≤ m → m < k + n → rng1 m = rng2 m) →
      genAlnumChars rng1 k n = genAlnumChars rng2 k n := by
  induction n generalizing k with
  | zero => intro rng1 rng2 _; rfl
  | succ n ih =>
    intro rng1 rng2 hagree
    simp only [genAlnumChars]
    rw [hagree k (le_refl k) (by omega), ih (k + 1) rng1 rng2 (fun m h1 h2 => hagree m (by omega) (by omega))]


/-! ### Chunking, intercalate and charset normalization of formatted output -/

lemma chunkAux_flatten (gs : ℕ) :
    ∀ (n : ℕ) (l : List Char), (chunkAux gs l n).flatten = l.take (n * gs) := by
  intro n
  induction n with
  | zero => intro l; simp [chunkAux]
  | succ n ih =>
    intro l
    simp only [chunkAux, List.flatten_cons, ih]
    rw [show (n + 1) * gs = gs + n * gs by ring, List.take_add]

lemma chunkAux_mem (gs : ℕ) :
    ∀ (n : ℕ) (l x : List Char), x ∈ chunkAux gs l n → ∀ c ∈ x, c ∈ l := by
  intro n
  induction n with
  | zero => intro l x hx; simp [chunkAux] at hx
  | succ n ih =>
    intro l x hx c hc
    simp only [chunkAux, List.mem_cons] at hx
    rcases hx with rfl | hx
    · exact List.take_subset gs l hc
    · exact List.drop_subset gs l (ih (l.drop gs) x hx c hc)

lemma mapToCharset_nil (cs : Charset) : mapToCharset [] cs = [] := by cases cs <;> rfl

lemma mapToCharset_intercalate (sep : List Char) (cs : Charset)
    (hsep : mapToCharset sep cs = []) :
    ∀ (xs : List (List Char)),
      mapToCharset (List.intercalate sep xs) cs =
        (xs.map (fun x => mapToCharset x cs)).flatten := by
  intro xs
  induction xs with
  | nil => simp [List.intercalate, List.intersperse, mapToCharset_nil]
  | cons a t ih =>
    cases t with
    | nil => simp [List.intercalate, List.intersperse]
    | cons b t2 =>
      have hstep : List.intercalate sep (a :: b :: t2) =
          a ++ (sep ++ List.intercalate sep (b :: t2)) := by
        simp [List.intercalate, List.intersperse_cons₂]
      rw [hstep, mapToCharset_append, mapToCharset_append, hsep, ih]
      simp

lemma formatId_members (full : List Char) (fo : FormatOptions)
    (hmem : ∀ c ∈ full, c ∈ alphabetOf (fo.charset.getD Charset.numeric))
    (hlen : full.length = fo.groups.getD 4 * fo.groupSize.getD 4) :
    ∃ out, formatId full fo = some out ∧
      (mapToCharset (fo.separator.getD [' ']) (fo.charset.getD Charset.numeric) = [] →
        mapToCharset out (fo.charset.getD Charset.numeric) = full) := by
  set cs := fo.charset.getD Charset.numeric with hcs
  set groups := fo.groups.getD 4 with hgroups
  set groupSize := fo.groupSize.getD 4 with hgroupSize
  have hid : mapToCharset full cs = full := mapToCharset_id_of_mem hmem
  simp only [formatId]
  rw [← hcs, ← hgroups, ← hgroupSize, hid]
  rw [if_neg (show ¬(full.length ≠ groups * groupSize) from fun hcon => hcon hlen)]
  refine ⟨_, rfl, ?_⟩
  intro hsep
  by_cases hgs : groupSize = 0
  · have hfull : full = [] := by
      have : full.length = 0 := by rw [hlen, hgs, Nat.mul_zero]
      exact List.eq_nil_of_length_eq_zero this
    subst hfull
    simp [hgs, List.intercalate, List.intersperse, mapToCharset_nil]
  · rw [if_neg hgs, mapToCharset_intercalate _ _ hsep]
    have hchunks : (chunkAux groupSize full groups).map (fun x => mapToCharset x cs) =
        (chunkAux groupSize full groups).map id := by
      refine List.map_congr_left ?_
      intro x hx
      exact mapToCharset_id_of_mem (fun c hc => hmem c (chunkAux_mem groupSize groups full x hx c hc))
    rw [hchunks, List.map_id, chunkAux_flatten, ← hlen, List.take_length]

/-! ### Validator facts -/

lemma luhnValidate_true_elim {full : List Char} (h : luhnValidate full = true) :
    2 ≤ full.length ∧ full.all Char.isDigit = true := by
  unfold luhnValidate at h
  by_cases hg : 2 ≤ full.length ∧ full.all Char.isDigit = true
  · exact hg
  · rw [if_neg (by tauto)] at h
    simp at h

lemma mod36Validate_true_elim {full : List Char} (h : mod36Validate full = true) :
    2 ≤ full.length ∧ full.all isBase36 = true := by
  unfold mod36Validate at h
  by_cases hg : 2 ≤ full.length ∧ full.all isBase36 = true
  · exact hg
  · rw [if_neg (by tauto)] at h
    simp at h

lemma validateId_fixed_true_of (v : ValidateOptions) {input full : List Char}
    (hpat : (v.pattern.map jsTrim).getD [] = [])
    (hnorm : mapToCharset input (v.charset.getD Charset.numeric) = full)
    (hlen : full.length = v.totalLength.getD (v.groups.getD 4 * v.groupSize.getD 4))
    (hmem : ∀ c ∈ full, c ∈ alphabetOf (v.charset.getD Charset.numeric))
    (hne : full ≠ [])
    (halgoL : v.algorithm.getD Algorithm.none = Algorithm.luhn → luhnValidate full = true)
    (halgoM : v.algorithm.getD Algorithm.none = Algorithm.mod36 → mod36Validate full = true) :
    validateId input v = some true := by
  have hee : full.isEmpty = false := by
    cases full with
    | nil => exact absurd rfl hne
    | cons a t => rfl
  simp only [validateId]
  rw [if_neg (by simp [hpat]), hnorm, if_neg (by rw [hlen]; exact fun hcon => hcon rfl)]
  split
  case _ heq =>
    -- luhn
    have halgo := halgoL heq
    obtain ⟨_, hdig⟩ := luhnValidate_true_elim halgo
    rw [if_neg (by simp [hee, hdig]), halgo]
  case _ heq =>
    -- mod36
    have halgo := halgoM heq
    obtain ⟨_, hb⟩ := mod36Validate_true_elim halgo
    rw [if_neg (by simp [hee, hb]), halgo]
  case _ heq =>
    -- none
    rcases hcs : v.charset.getD Charset.numeric with _ | _
    · rw [hcs] at hmem
      rw [if_pos rfl]
      have hdig : full.all Char.isDigit = true :=
        List.all_eq_true.mpr
          (fun c hc => isDigit_of_mem_NUM (by simpa [alphabetOf] using hmem c hc))
      rw [hee, hdig]
      rfl
    · rw [hcs] at hmem
      rw [if_neg (by decide)]
      have hb : full.all isBase36 = true :=
        List.all_eq_true.mpr
          (fun c hc => isBase36_of_mem_BASE36 (by simpa [alphabetOf] using hmem c hc))
      rw [hee, hb]
      rfl


/-! ### Resolved option values (the `??`-defaults applied inside the functions) -/

/-- Charset after the `?? "numeric"` default. -/
@[reducible] def GenerateOptions.resCharset (o : GenerateOptions) : Charset :=
  o.charset.getD Charset.numeric

/-- Algorithm after the `?? "none"` default. -/
@[reducible] def GenerateOptions.resAlgorithm (o : GenerateOptions) : Algorithm :=
  o.algorithm.getD Algorithm.none

/-- total = totalLength ?? groups * groupSize with the 4/4 defaults. -/
@[reducible] def GenerateOptions.resTotal (o : GenerateOptions) : ℕ :=
  o.totalLength.getD (o.groups.getD 4 * o.groupSize.getD 4)

/-- The validate options carrying the same fields as the generate options. -/
def GenerateOptions.toValidate (o : GenerateOptions) : ValidateOptions :=
  ⟨o.groups, o.groupSize, o.totalLength, o.algorithm, o.charset, o.pattern⟩

/-- Charset after the `?? "numeric"` default. -/
@[reducible] def ValidateOptions.resCharset (v : ValidateOptions) : Charset :=
  v.charset.getD Charset.numeric

/-- Algorithm after the `?? "none"` default. -/
@[reducible] def ValidateOptions.resAlgorithm (v : ValidateOptions) : Algorithm :=
  v.algorithm.getD Algorithm.none

/-- The trimmed pattern of validateId (`opts.pattern?.trim() ?? ""`). -/
@[reducible] def ValidateOptions.resPattern (v : ValidateOptions) : List Char :=
  (v.pattern.map jsTrim).getD []

/-! ### Constant-zero rng evaluations (used for concrete instances) -/

lemma floor_zero_mul (x : ℚ) : ⌊(0 : ℚ) * x⌋ = 0 := by rw [zero_mul, Int.floor_zero]

lemma randChar_zero (cs : Charset) : randChar 0 cs = '0' := by
  cases cs <;>
  · show listAtD _ ⌊(0 : ℚ) * _⌋ 'u' = '0'
    rw [floor_zero_mul]
    rfl

lemma genDigits_zero (k n : ℕ) :
    genDigits (fun _ => 0) k n = (List.replicate n '0', k + n) := by
  induction n generalizing k with
  | zero => simp [genDigits]
  | succ n ih =>
    simp only [genDigits, ih, floor_zero_mul, List.replicate_succ]
    refine Prod.ext ?_ ?_
    · show jsIntStr 0 ++ List.replicate n '0' = '0' :: List.replicate n '0'
      rfl
    · show k + 1 + n = k + (n + 1)
      omega

lemma genAlnumChars_zero (k n : ℕ) :
    genAlnumChars (fun _ => 0) k n = (List.replicate n '0', k + n) := by
  induction n generalizing k with
  | zero => simp [genAlnumChars]
  | succ n ih =>
    simp only [genAlnumChars, ih, randChar_zero, List.replicate_succ]
    refine Prod.ext rfl ?_
    show k + 1 + n = k + (n + 1)
    omega

lemma genNumericBody_zero (k len : ℕ) :
    genNumericBody (fun _ => 0) k len = ('1' :: List.replicate (len - 1) '0', k + 1 + (len - 1)) := by
  simp only [genNumericBody, genDigits_zero, floor_zero_mul]
  refine Prod.ext ?_ rfl
  show jsIntStr (1 + 0) ++ List.replicate (len - 1) '0' = '1' :: List.replicate (len - 1) '0'
  rfl

/-! ## Claim C1: totality of validateId -/

/-- C1 (code bug witness): validateId does throw for a pattern whose only '#' is the
checksum slot under mod36 — the reconstructed checksum body is empty and
mod36CheckChar rejects the empty string. validateId("A", {pattern:"#",
algorithm:"mod36", charset:"alphanumeric"}) raises instead of returning false. -/
theorem validateId_throws_on_empty_mod36_body :
    validateId ['A']
      { pattern := some ['#'], algorithm := some Algorithm.mod36,
        charset := some Charset.alphanumeric } = Option.none := by decide

/-! ## Claim C2: empty-body behavior of the checksum primitives -/

/-- C2 (code bug witness): luhnChecksumDigit("") is the digit 0 as the specification
says, but mod36CheckChar("") throws (its ^[0-9A-Z]+$ guard rejects the empty body)
instead of returning '0'. -/
theorem empty_body_checksum_values :
    luhnChecksumDigit [] = some 0 ∧ mod36CheckChar [] = Option.none := by decide

/-! ## Claim C4: the Luhn checksum procedure -/

/-- C4 (counterexample): on the specification's own vector "7992739871" the code returns
3, while the claimed procedure — doubling the body positions 1,3,5,... counted from the
right (realized by luhnPosSum 1) — yields (10 - sum mod 10) mod 10 = 4. The code
actually doubles positions 0,2,4,... from the right. -/
theorem luhn_positions_counterexample :
    luhnChecksumDigit ("7992739871".data) = some 3 ∧
    (10 - luhnPosSum 1 ("7992739871".data) % 10) % 10 = 4 := by decide

/-- C4 (amended): luhnChecksumDigit processes the body right-to-left doubling the digits
at positions 0,2,4,... from the right (0-indexed), subtracting 9 whenever a doubled value
exceeds 9 (luhnPosSum 0 is exactly that sum), and returns (10 - sum mod 10) mod 10; it
raises an error exactly when the body contains a non-digit character. -/
theorem luhnChecksumDigit_characterization :
    ∀ body : List Char,
      (body.all Char.isDigit = true →
        luhnChecksumDigit body = some ((10 - luhnPosSum 0 body % 10) % 10)) ∧
      (body.all Char.isDigit = false → luhnChecksumDigit body = Option.none) :=
  fun _ => ⟨fun h => luhnChecksumDigit_eq_of_digits h, fun h => luhnChecksumDigit_none h⟩

/-- C4 witness: the amended characterization applied to the concrete vector. -/
theorem luhnChecksumDigit_characterization_witness :
    luhnChecksumDigit ("7992739871".data) =
      some ((10 - luhnPosSum 0 ("7992739871".data) % 10) % 10) :=
  (luhnChecksumDigit_characterization ("7992739871".data)).1 (by decide)

/-! ## Claim C8: format inverse -/

/-- C8: for every string of exactly 16 = groups * groupSize digits (the defaults of the
formatId call with only a separator supplied), normalizeId undoes formatId with the
space separator. -/
theorem format_normalize_inverse :
    ∀ id : List Char, id.all Char.isDigit = true → id.length = 16 →
      Option.map normalizeId (formatId id { separator := some [' '] }) = some id := by
  intro id hdig hlen
  have hmem : ∀ c ∈ id, c ∈ alphabetOf Charset.numeric := by
    intro c hc
    have := List.all_eq_true.mp hdig c hc
    simpa [alphabetOf] using mem_NUM_of_isDigit this
  obtain ⟨out, hout, hnorm⟩ := formatId_members
    id { separator := some [' '] } hmem (by simpa using hlen)
  rw [hout]
  simp only [Option.map_some']
  have h2 : mapToCharset out Charset.numeric = id := hnorm (by decide)
  unfold normalizeId
  rw [h2]

/-- C8 witness: a concrete 16-digit identifier round-trips through formatId and
normalizeId. -/
theorem format_normalize_inverse_witness :
    Option.map normalizeId (formatId ("1234567890123456".data) { separator := some [' '] }) =
      some ("1234567890123456".data) :=
  format_normalize_inverse ("1234567890123456".data) (by decide) (by decide)

/-! ## Claim C10: normalization is charset-closed and idempotent -/

/-- C10: mapToCharset keeps only alphabet characters of the charset in their original
relative order (it is a sublist of the case-normalized input), and it is idempotent;
hence normalizeIdForCharset and normalizeId are idempotent. -/
theorem mapToCharset_closed_idempotent :
    ∀ (s : List Char) (cs : Charset),
      (∀ c ∈ mapToCharset s cs, c ∈ alphabetOf cs) ∧
      mapToCharset (mapToCharset s cs) cs = mapToCharset s cs ∧
      normalizeIdForCharset (normalizeIdForCharset s cs) cs = normalizeIdForCharset s cs ∧
      normalizeId (normalizeId s) = normalizeId s ∧
      (mapToCharset s cs).Sublist
        (if cs = Charset.alphanumeric then s.map Char.toUpper else s) := by
  intro s cs
  have hsub : ∀ c ∈ mapToCharset s cs, c ∈ alphabetOf cs :=
    fun c hc => mem_alphabet_of_mem_mapToCharset hc
  have hid : mapToCharset (mapToCharset s cs) cs = mapToCharset s cs :=
    mapToCharset_id_of_mem hsub
  refine ⟨hsub, hid, hid, ?_, ?_⟩
  · exact mapToCharset_id_of_mem (fun c hc => mem_alphabet_of_mem_mapToCharset hc)
  · cases cs
    · rw [if_neg (by decide), mapToCharset_numeric_def]
      exact List.filter_sublist s
    · rw [if_pos rfl, mapToCharset_alnum_def]
      exact List.filter_sublist (s.map Char.toUpper)

/-- C10 witness: the closure and idempotence facts at a concrete mixed input. -/
theorem mapToCharset_closed_idempotent_witness :
    mapToCharset (mapToCharset ['a', 'B', '-', '3'] Charset.alphanumeric) Charset.alphanumeric =
      mapToCharset ['a', 'B', '-', '3'] Charset.alphanumeric ∧
    'A' ∈ alphabetOf Charset.alphanumeric :=
  ⟨(mapToCharset_closed_idempotent ['a', 'B', '-', '3'] Charset.alphanumeric).2.1,
   (mapToCharset_closed_idempotent ['a', 'B', '-', '3'] Charset.alphanumeric).1 'A' (by decide)⟩


/-! ### generateFixed: unfolding equations and success lemma -/

lemma finishFixed_spec (o : GenerateOptions) {groups groupSize : ℕ} (cs : Charset)
    (full : List Char) (k : ℕ)
    (hmem : ∀ c ∈ full, c ∈ alphabetOf cs)
    (hlen : o.separator.getD [] ≠ [] → full.length = groups * groupSize) :
    ∃ out, finishFixed o groups groupSize cs full k = (some out, k) ∧
      (mapToCharset (o.separator.getD []) cs = [] → mapToCharset out cs = full) := by
  unfold finishFixed
  by_cases hsep : o.separator.getD [] ≠ []
  · rw [if_pos hsep]
    obtain ⟨out, hout, hnorm⟩ := formatId_members
      full ⟨some groups, some groupSize, o.separator, some cs⟩
      hmem (hlen hsep)
    rw [hout]
    refine ⟨out, rfl, ?_⟩
    intro hsepnorm
    refine hnorm ?_
    rcases hs : o.separator with _ | s
    · rw [hs] at hsep
      simp at hsep
    · rw [hs] at hsepnorm
      simpa using hsepnorm
  · rw [if_neg hsep]
    exact ⟨full, rfl, fun _ => mapToCharset_id_of_mem hmem⟩

lemma generateFixed_eq_none (o : GenerateOptions) (rng : ℕ → ℚ)
    (halgo : o.resAlgorithm = Algorithm.none)
    (htotal : ¬(o.resTotal < 2))
    (hconf : ¬(o.totalLength.getD 0 ≠ 0 ∧ o.separator.getD [] ≠ [] ∧
        o.totalLength.getD 0 ≠ o.groups.getD 4 * o.groupSize.getD 4))
    (hl : ¬(o.resAlgorithm = Algorithm.luhn ∧ o.resCharset ≠ Charset.numeric))
    (hm : ¬(o.resAlgorithm = Algorithm.mod36 ∧ o.resCharset ≠ Charset.alphanumeric)) :
    generateFixed o rng =
      finishFixed o (o.groups.getD 4) (o.groupSize.getD 4) o.resCharset
        ((if o.resCharset = Charset.numeric then genNumericBody rng 0 o.resTotal
          else genAlnumChars rng 0 o.resTotal).1)
        ((if o.resCharset = Charset.numeric then genNumericBody rng 0 o.resTotal
          else genAlnumChars rng 0 o.resTotal).2) := by
  simp only [generateFixed]
  rw [if_neg htotal, if_neg hconf, if_neg hl, if_neg hm,
    show o.algorithm.getD Algorithm.none = Algorithm.none from halgo]
  rfl

lemma generateFixed_eq_luhn (o : GenerateOptions) (rng : ℕ → ℚ)
    (halgo : o.resAlgorithm = Algorithm.luhn)
    (htotal : ¬(o.resTotal < 2))
    (hconf : ¬(o.totalLength.getD 0 ≠ 0 ∧ o.separator.getD [] ≠ [] ∧
        o.totalLength.getD 0 ≠ o.groups.getD 4 * o.groupSize.getD 4))
    (hl : ¬(o.resAlgorithm = Algorithm.luhn ∧ o.resCharset ≠ Charset.numeric))
    (hm : ¬(o.resAlgorithm = Algorithm.mod36 ∧ o.resCharset ≠ Charset.alphanumeric)) :
    generateFixed o rng =
      (match luhnChecksumDigit
          ((if o.resCharset = Charset.numeric then genNumericBody rng 0 (o.resTotal - 1)
            else genAlnumChars rng 0 (o.resTotal - 1)).1) with
       | some d =>
         finishFixed o (o.groups.getD 4) (o.groupSize.getD 4) o.resCharset
           ((if o.resCharset = Charset.numeric then genNumericBody rng 0 (o.resTotal - 1)
             else genAlnumChars rng 0 (o.resTotal - 1)).1 ++ jsIntStr (d : ℤ))
           ((if o.resCharset = Charset.numeric then genNumericBody rng 0 (o.resTotal - 1)
             else genAlnumChars rng 0 (o.resTotal - 1)).2)
       | Option.none =>
         (Option.none,
          (if o.resCharset = Charset.numeric then genNumericBody rng 0 (o.resTotal - 1)
           else genAlnumChars rng 0 (o.resTotal - 1)).2)) := by
  simp only [generateFixed]
  rw [if_neg htotal, if_neg hconf, if_neg hl, if_neg hm,
    show o.algorithm.getD Algorithm.none = Algorithm.luhn from halgo]
  rfl

lemma generateFixed_eq_mod36 (o : GenerateOptions) (rng : ℕ → ℚ)
    (halgo : o.resAlgorithm = Algorithm.mod36)
    (htotal : ¬(o.resTotal < 2))
    (hconf : ¬(o.totalLength.getD 0 ≠ 0 ∧ o.separator.getD [] ≠ [] ∧
        o.totalLength.getD 0 ≠ o.groups.getD 4 * o.groupSize.getD 4))
    (hl : ¬(o.resAlgorithm = Algorithm.luhn ∧ o.resCharset ≠ Charset.numeric))
    (hm : ¬(o.resAlgorithm = Algorithm.mod36 ∧ o.resCharset ≠ Charset.alphanumeric)) :
    generateFixed o rng =
      (match mod36CheckChar
          ((if o.resCharset = Charset.numeric then genNumericBody rng 0 (o.resTotal - 1)
            else genAlnumChars rng 0 (o.resTotal - 1)).1) with
       | some c =>
         finishFixed o (o.groups.getD 4) (o.groupSize.getD 4) o.resCharset
           ((if o.resCharset = Charset.numeric then genNumericBody rng 0 (o.resTotal - 1)
             else genAlnumChars rng 0 (o.resTotal - 1)).1 ++ [c])
           ((if o.resCharset = Charset.numeric then genNumericBody rng 0 (o.resTotal - 1)
             else genAlnumChars rng 0 (o.resTotal - 1)).2)
       | Option.none =>
         (Option.none,
          (if o.resCharset = Charset.numeric then genNumericBody rng 0 (o.resTotal - 1)
           else genAlnumChars rng 0 (o.resTotal - 1)).2)) := by
  simp only [generateFixed]
  rw [if_neg htotal, if_neg hconf, if_neg hl, if_neg hm,
    show o.algorithm.getD Algorithm.none = Algorithm.mod36 from halgo]
  rfl


lemma generateFixed_some (o : GenerateOptions) (rng : ℕ → ℚ)
    (hr : ∀ i, 0 ≤ rng i ∧ rng i < 1)
    (htotal : ¬(o.resTotal < 2))
    (hconf : ¬(o.totalLength.getD 0 ≠ 0 ∧ o.separator.getD [] ≠ [] ∧
        o.totalLength.getD 0 ≠ o.groups.getD 4 * o.groupSize.getD 4))
    (hl : ¬(o.resAlgorithm = Algorithm.luhn ∧ o.resCharset ≠ Charset.numeric))
    (hm : ¬(o.resAlgorithm = Algorithm.mod36 ∧ o.resCharset ≠ Charset.alphanumeric)) :
    ∃ full out,
      generateFixed o rng =
        (some out, if o.resAlgorithm = Algorithm.none then o.resTotal else o.resTotal - 1) ∧
      full.length = o.resTotal ∧
      (∀ c ∈ full, c ∈ alphabetOf o.resCharset) ∧
      (mapToCharset (o.separator.getD []) o.resCharset = [] →
        mapToCharset out o.resCharset = full) ∧
      (o.resAlgorithm = Algorithm.luhn → luhnValidate full = true) ∧
      (o.resAlgorithm = Algorithm.mod36 → mod36Validate full = true) := by
  have htot2 : 2 ≤ o.resTotal := by omega
  have hglen : o.separator.getD [] ≠ [] →
      o.resTotal = o.groups.getD 4 * o.groupSize.getD 4 := by
    intro hsep
    rcases ht : o.totalLength with _ | t
    · simp [GenerateOptions.resTotal, ht]
    · have htt : o.resTotal = t := by simp [GenerateOptions.resTotal, ht]
      by_cases ht0 : t = 0
      · omega
      · by_contra hne
        refine hconf ⟨by simp [ht, ht0], hsep, ?_⟩
        rw [htt] at hne
        simpa [ht] using hne
  rcases halgo : o.resAlgorithm with _ | _ | _
  · -- algorithm "none"
    rw [generateFixed_eq_none o rng halgo htotal hconf hl hm]
    rcases hcs : o.resCharset with _ | _
    · rw [if_pos (show Charset.numeric = Charset.numeric from rfl)]
      obtain ⟨hblen, hbmem⟩ := genNumericBody_spec rng hr (show 1 ≤ o.resTotal by omega) 0
      have hnext : (genNumericBody rng 0 o.resTotal).2 = o.resTotal := by
        rw [genNumericBody_next rng (by omega) 0]
        omega
      obtain ⟨out, hfin, hnorm⟩ := finishFixed_spec o Charset.numeric
        (genNumericBody rng 0 o.resTotal).1 ((genNumericBody rng 0 o.resTotal).2)
        (fun c hc => by rw [show alphabetOf Charset.numeric = ALPHABET_NUM from rfl]; exact hbmem c hc)
        (fun hsep => by rw [hblen]; exact hglen hsep)
      refine ⟨(genNumericBody rng 0 o.resTotal).1, out, ?_, hblen, ?_, ?_, ?_, ?_⟩
      · rw [hfin, hnext, if_pos (show Algorithm.none = Algorithm.none from rfl)]
      · intro c hc
        rw [show alphabetOf Charset.numeric = ALPHABET_NUM from rfl]
        exact hbmem c hc
      · exact hnorm
      · intro h
        exact absurd h (by decide)
      · intro h
        exact absurd h (by decide)
    · rw [if_neg (show ¬(Charset.alphanumeric = Charset.numeric) by decide)]
      obtain ⟨hblen, hbmem⟩ := genAlnumChars_spec rng hr o.resTotal 0
      have hnext : (genAlnumChars rng 0 o.resTotal).2 = o.resTotal := by
        rw [genAlnumChars_next rng o.resTotal 0]
        omega
      obtain ⟨out, hfin, hnorm⟩ := finishFixed_spec o Charset.alphanumeric
        (genAlnumChars rng 0 o.resTotal).1 ((genAlnumChars rng 0 o.resTotal).2)
        (fun c hc => by
          rw [show alphabetOf Charset.alphanumeric = ALPHABET_BASE36 from rfl]
          exact hbmem c hc)
        (fun hsep => by rw [hblen]; exact hglen hsep)
      refine ⟨(genAlnumChars rng 0 o.resTotal).1, out, ?_, hblen, ?_, ?_, ?_, ?_⟩
      · rw [hfin, hnext, if_pos (show Algorithm.none = Algorithm.none from rfl)]
      · intro c hc
        rw [show alphabetOf Charset.alphanumeric = ALPHABET_BASE36 from rfl]
        exact hbmem c hc
      · exact hnorm
      · intro h
        exact absurd h (by decide)
      · intro h
        exact absurd h (by decide)
  · -- algorithm "luhn"
    have hcs : o.resCharset = Charset.numeric := by
      by_contra hne
      exact hl ⟨halgo, hne⟩
    rw [generateFixed_eq_luhn o rng halgo htotal hconf hl hm, if_pos hcs]
    have hbl1 : 1 ≤ o.resTotal - 1 := by omega
    obtain ⟨hblen, hbmem⟩ := genNumericBody_spec rng hr hbl1 0
    have hnext : (genNumericBody rng 0 (o.resTotal - 1)).2 = o.resTotal - 1 := by
      rw [genNumericBody_next rng hbl1 0]
      omega
    have hdig : (genNumericBody rng 0 (o.resTotal - 1)).1.all Char.isDigit = true :=
      List.all_eq_true.mpr (fun c hc => isDigit_of_mem_NUM (hbmem c hc))
    have hbne : (genNumericBody rng 0 (o.resTotal - 1)).1 ≠ [] := by
      intro h
      rw [h] at hblen
      simp at hblen
      omega
    have hld := luhnChecksumDigit_eq_of_digits hdig
    simp only [hld]
    set D := (10 - luhnPosSum 0 (genNumericBody rng 0 (o.resTotal - 1)).1 % 10) % 10 with hD
    have hD9 : D ≤ 9 := by
      have : D < 10 := Nat.mod_lt _ (by norm_num)
      omega
    have hstr : jsIntStr (D : ℤ) = [Char.ofNat (48 + D)] := by
      have := jsIntStr_digit (i := (D : ℤ)) (by exact_mod_cast Nat.zero_le D)
        (by exact_mod_cast (by omega : D < 10))
      simpa using this
    obtain ⟨hDmem, hDdig, hDval⟩ := digitChar_props hD9
    have hfullmem : ∀ c ∈ (genNumericBody rng 0 (o.resTotal - 1)).1 ++ jsIntStr (D : ℤ),
        c ∈ ALPHABET_NUM := by
      intro c hc
      rw [hstr] at hc
      rcases List.mem_append.mp hc with hc | hc
      · exact hbmem c hc
      · rw [List.mem_singleton.mp hc]
        exact hDmem
    have hfulllen : ((genNumericBody rng 0 (o.resTotal - 1)).1 ++ jsIntStr (D : ℤ)).length =
        o.resTotal := by
      rw [hstr, List.length_append, hblen]
      simp only [List.length_singleton]
      omega
    obtain ⟨out, hfin, hnorm⟩ := finishFixed_spec o Charset.numeric
      ((genNumericBody rng 0 (o.resTotal - 1)).1 ++ jsIntStr (D : ℤ))
      ((genNumericBody rng 0 (o.resTotal - 1)).2)
      (fun c hc => by
        rw [show alphabetOf Charset.numeric = ALPHABET_NUM from rfl]
        exact hfullmem c hc)
      (fun hsep => by rw [hfulllen]; exact hglen hsep)
    refine ⟨(genNumericBody rng 0 (o.resTotal - 1)).1 ++ jsIntStr (D : ℤ), out,
      ?_, hfulllen, ?_, ?_, ?_, ?_⟩
    · rw [hcs, hfin, hnext, if_neg (show ¬(Algorithm.luhn = Algorithm.none) by decide)]
    · intro c hc
      rw [hcs, show alphabetOf Charset.numeric = ALPHABET_NUM from rfl]
      exact hfullmem c hc
    · rw [hcs]
      exact hnorm
    · intro _
      rw [hstr]
      exact luhnValidate_concat hdig hbne hld
    · intro h
      exact absurd h (by decide)
  · -- algorithm "mod36"
    have hcs : o.resCharset = Charset.alphanumeric := by
      by_contra hne
      exact hm ⟨halgo, hne⟩
    have hcsne : ¬(o.resCharset = Charset.numeric) := by rw [hcs]; decide
    rw [generateFixed_eq_mod36 o rng halgo htotal hconf hl hm, if_neg hcsne]
    obtain ⟨hblen, hbmem⟩ := genAlnumChars_spec rng hr (o.resTotal - 1) 0
    have hnext : (genAlnumChars rng 0 (o.resTotal - 1)).2 = o.resTotal - 1 := by
      rw [genAlnumChars_next rng (o.resTotal - 1) 0]
      omega
    have hb36 : (genAlnumChars rng 0 (o.resTotal - 1)).1.all isBase36 = true :=
      List.all_eq_true.mpr (fun c hc => isBase36_of_mem_BASE36 (hbmem c hc))
    have hbne : (genAlnumChars rng 0 (o.resTotal - 1)).1 ≠ [] := by
      intro h
      rw [h] at hblen
      simp at hblen
      omega
    obtain ⟨chk, hchk, hchkmem⟩ := mod36CheckChar_some hbne hb36
    simp only [hchk]
    have hfullmem : ∀ c ∈ (genAlnumChars rng 0 (o.resTotal - 1)).1 ++ [chk],
        c ∈ ALPHABET_BASE36 := by
      intro c hc
      rcases List.mem_append.mp hc with hc | hc
      · exact hbmem c hc
      · rw [List.mem_singleton.mp hc]
        exact hchkmem
    have hfulllen : ((genAlnumChars rng 0 (o.resTotal - 1)).1 ++ [chk]).length = o.resTotal := by
      rw [List.length_append, hblen]
      simp only [List.length_singleton]
      omega
    obtain ⟨out, hfin, hnorm⟩ := finishFixed_spec o Charset.alphanumeric
      ((genAlnumChars rng 0 (o.resTotal - 1)).1 ++ [chk])
      ((genAlnumChars rng 0 (o.resTotal - 1)).2)
      (fun c hc => by
        rw [show alphabetOf Charset.alphanumeric = ALPHABET_BASE36 from rfl]
        exact hfullmem c hc)
      (fun hsep => by rw [hfulllen]; exact hglen hsep)
    refine ⟨(genAlnumChars rng 0 (o.resTotal - 1)).1 ++ [chk], out, ?_, hfulllen, ?_, ?_, ?_, ?_⟩
    · rw [hcs, hfin, hnext, if_neg (show ¬(Algorithm.mod36 = Algorithm.none) by decide)]
    · intro c hc
      rw [hcs, show alphabetOf Charset.alphanumeric = ALPHABET_BASE36 from rfl]
      exact hfullmem c hc
    · rw [hcs]
      exact hnorm
    · intro h
      exact absurd h (by decide)
    · intro _
      exact mod36Validate_concat hbne hb36 hchk


lemma generateFixed_none (o : GenerateOptions) (rng : ℕ → ℚ)
    (h : o.resTotal < 2 ∨
      (o.totalLength.getD 0 ≠ 0 ∧ o.separator.getD [] ≠ [] ∧
        o.totalLength.getD 0 ≠ o.groups.getD 4 * o.groupSize.getD 4) ∨
      (o.resAlgorithm = Algorithm.luhn ∧ o.resCharset ≠ Charset.numeric) ∨
      (o.resAlgorithm = Algorithm.mod36 ∧ o.resCharset ≠ Charset.alphanumeric)) :
    (generateFixed o rng).1 = Option.none := by
  simp only [generateFixed]
  by_cases h1 : o.resTotal < 2
  · rw [if_pos h1]
  · rw [if_neg h1]
    by_cases h2 : o.totalLength.getD 0 ≠ 0 ∧ o.separator.getD [] ≠ [] ∧
        o.totalLength.getD 0 ≠ o.groups.getD 4 * o.groupSize.getD 4
    · rw [if_pos h2]
    · rw [if_neg h2]
      by_cases h3 : o.resAlgorithm = Algorithm.luhn ∧ o.resCharset ≠ Charset.numeric
      · rw [if_pos h3]
      · rw [if_neg h3]
        by_cases h4 : o.resAlgorithm = Algorithm.mod36 ∧ o.resCharset ≠ Charset.alphanumeric
        · rw [if_pos h4]
        · rcases h with h | h | h | h
          · exact absurd h h1
          · exact absurd h h2
          · exact absurd h h3
          · exact absurd h h4

lemma generateIdCore_fixed (o : GenerateOptions) (rng : ℕ → ℚ)
    (h : o.pattern.getD [] = [] ∨ jsTrim (o.pattern.getD []) = []) :
    generateIdCore o rng = generateFixed o rng := by
  simp only [generateIdCore]
  rw [if_neg ?_]
  rintro ⟨h1, h2⟩
  rcases h with h | h
  · exact h1 h
  · exact h2 h

/-! ## Claim C5: the exact error conditions of fixed-length generation -/

/-- C5 (counterexample): with totalLength 5 and the empty-string separator — both
supplied, and 5 is different from groups * groupSize = 16 — the claim demands an error,
but JS truthiness makes the empty separator skip the conflict check and generateId
returns the five-digit string normally. -/
theorem generateId_empty_separator_no_error :
    generateId { totalLength := some 5, separator := some [] } (fun _ => 0) =
      some ['1', '0', '0', '0', '0'] := by
  rw [generateId, generateIdCore_fixed _ _ (Or.inl (by rfl))]
  simp only [generateFixed, genNumericBody_zero]
  decide

/-- C5 (amended): in fixed-length mode (no pattern) and for an rng with values in [0,1),
generateId raises an error exactly when total = totalLength ?? groups*groupSize is less
than 2, or both totalLength and a NON-EMPTY separator are supplied with totalLength
different from groups*groupSize (the conflict check uses JS truthiness, so the empty
separator never conflicts; a supplied totalLength of 0 is already caught by the first
condition), or luhn is paired with a non-numeric charset, or mod36 with a
non-alphanumeric charset; for every other options value it returns normally. -/
theorem generateId_fixed_error_iff :
    ∀ (o : GenerateOptions) (rng : ℕ → ℚ),
      o.pattern = Option.none →
      (∀ i, 0 ≤ rng i ∧ rng i < 1) →
      (generateId o rng = Option.none ↔
        (o.resTotal < 2 ∨
         (∃ t s, o.totalLength = some t ∧ o.separator = some s ∧ s ≠ [] ∧
            t ≠ o.groups.getD 4 * o.groupSize.getD 4) ∨
         (o.resAlgorithm = Algorithm.luhn ∧ o.resCharset ≠ Charset.numeric) ∨
         (o.resAlgorithm = Algorithm.mod36 ∧ o.resCharset ≠ Charset.alphanumeric))) := by
  intro o rng hpat hr
  have hfix : generateIdCore o rng = generateFixed o rng :=
    generateIdCore_fixed o rng (Or.inl (by rw [hpat]; rfl))
  unfold generateId
  rw [hfix]
  constructor
  · intro hnone
    by_contra hnot
    push_neg at hnot
    obtain ⟨hA, hB, hC, hD⟩ := hnot
    have hconf : ¬(o.totalLength.getD 0 ≠ 0 ∧ o.separator.getD [] ≠ [] ∧
        o.totalLength.getD 0 ≠ o.groups.getD 4 * o.groupSize.getD 4) := by
      rintro ⟨h1, h2, h3⟩
      rcases ht : o.totalLength with _ | t
      · rw [ht] at h1
        simp at h1
      · rcases hs : o.separator with _ | sSep
        · rw [hs] at h2
          simp at h2
        · have hsne : sSep ≠ [] := by
            intro hnil
            rw [hs, hnil] at h2
            simp at h2
          have := hB t sSep ht hs hsne
          rw [ht] at h3
          simp at h3
          exact h3 this
    obtain ⟨full, out, hgen, _⟩ := generateFixed_some o rng hr (by omega) hconf
      (fun hcon => hcon.2 (hC hcon.1)) (fun hcon => hcon.2 (hD hcon.1))
    rw [hgen] at hnone
    simp at hnone
  · intro h
    refine generateFixed_none o rng ?_
    rcases h with h | h | h | h
    · exact Or.inl h
    · obtain ⟨t, sSep, ht, hs, hsne, htne⟩ := h
      by_cases ht0 : t = 0
      · refine Or.inl ?_
        have : o.resTotal = 0 := by
          subst ht0
          simp [GenerateOptions.resTotal, ht]
        omega
      · refine Or.inr (Or.inl ⟨?_, ?_, ?_⟩)
        · rw [ht]
          simpa using ht0
        · rw [hs]
          simpa using hsne
        · rw [ht]
          simpa using htne
    · exact Or.inr (Or.inr (Or.inl h))
    · exact Or.inr (Or.inr (Or.inr h))

/-- C5 witness: the amended equivalence instantiated at totalLength 12 without a
separator (no error is raised there). -/
theorem generateId_fixed_error_iff_witness :
    generateId ({ totalLength := some 12 } : GenerateOptions) (fun _ => 0) = Option.none ↔
      (({ totalLength := some 12 } : GenerateOptions).resTotal < 2 ∨
       (∃ t s, ({ totalLength := some 12 } : GenerateOptions).totalLength = some t ∧
          ({ totalLength := some 12 } : GenerateOptions).separator = some s ∧ s ≠ [] ∧
          t ≠ ({ totalLength := some 12 } : GenerateOptions).groups.getD 4 *
            ({ totalLength := some 12 } : GenerateOptions).groupSize.getD 4) ∨
       (({ totalLength := some 12 } : GenerateOptions).resAlgorithm = Algorithm.luhn ∧
          ({ totalLength := some 12 } : GenerateOptions).resCharset ≠ Charset.numeric) ∨
       (({ totalLength := some 12 } : GenerateOptions).resAlgorithm = Algorithm.mod36 ∧
          ({ totalLength := some 12 } : GenerateOptions).resCharset ≠ Charset.alphanumeric)) :=
  generateId_fixed_error_iff { totalLength := some 12 } (fun _ => 0) rfl
    (fun _ => ⟨le_refl 0, by norm_num⟩)


/-! ## Claim C3: generate / validate round-trip -/

/-- C3 (counterexample): the separator "0" is made of charset members; the formatted
output then normalizes to 19 digits instead of 16, so validateId rejects the freshly
generated identifier even though the options are a "valid combination" in the claim's
sense (compatible charset/algorithm, total 16 >= 2, no totalLength/separator conflict). -/
theorem roundtrip_member_separator_counterexample :
    generateId { separator := some ['0'] } (fun _ => 0) =
      some ("1000000000000000000".data) ∧
    validateId ("1000000000000000000".data)
      (GenerateOptions.toValidate { separator := some ['0'] }) = some false := by
  constructor
  · rw [generateId, generateIdCore_fixed _ _ (Or.inl (by rfl))]
    simp only [generateFixed, genNumericBody_zero]
    decide
  · decide

/-- C3 (amended): the round-trip holds for every fixed-length option set with rng values
in [0,1), total at least 2, compatible charset/algorithm, no contradictory
totalLength/separator pair, and a separator none of whose characters normalize into the
charset alphabet (the amendment: a separator containing alphabet members survives
normalization and breaks the length check, see the counterexample). -/
theorem generate_validate_roundtrip :
    ∀ (o : GenerateOptions) (rng : ℕ → ℚ),
      o.pattern = Option.none →
      (∀ i, 0 ≤ rng i ∧ rng i < 1) →
      2 ≤ o.resTotal →
      (o.resAlgorithm = Algorithm.luhn → o.resCharset = Charset.numeric) →
      (o.resAlgorithm = Algorithm.mod36 → o.resCharset = Charset.alphanumeric) →
      (∀ t s, o.totalLength = some t → o.separator = some s → s ≠ [] →
        t = o.groups.getD 4 * o.groupSize.getD 4) →
      (∀ s, o.separator = some s → mapToCharset s o.resCharset = []) →
      ∃ out, generateId o rng = some out ∧ validateId out o.toValidate = some true := by
  intro o rng hpat hr htot hcl hcm hconfH hsepH
  have hconf : ¬(o.totalLength.getD 0 ≠ 0 ∧ o.separator.getD [] ≠ [] ∧
      o.totalLength.getD 0 ≠ o.groups.getD 4 * o.groupSize.getD 4) := by
    rintro ⟨h1, h2, h3⟩
    rcases ht : o.totalLength with _ | t
    · rw [ht] at h1
      simp at h1
    · rcases hs : o.separator with _ | sSep
      · rw [hs] at h2
        simp at h2
      · have hsne : sSep ≠ [] := by
          intro hnil
          rw [hs, hnil] at h2
          simp at h2
        have := hconfH t sSep ht hs hsne
        rw [ht] at h3
        simp at h3
        exact h3 this
  obtain ⟨full, out, hgen, hlen, hmem, hnorm, hluhn, hmod⟩ :=
    generateFixed_some o rng hr (by omega) hconf
      (fun hc => hc.2 (hcl hc.1)) (fun hc => hc.2 (hcm hc.1))
  refine ⟨out, ?_, ?_⟩
  · unfold generateId
    rw [generateIdCore_fixed o rng (Or.inl (by rw [hpat]; rfl)), hgen]
  · have hsepnorm : mapToCharset (o.separator.getD []) o.resCharset = [] := by
      rcases hs : o.separator with _ | sSep
      · exact mapToCharset_nil o.resCharset
      · exact hsepH sSep hs
    refine validateId_fixed_true_of o.toValidate ?_ (hnorm hsepnorm) hlen hmem ?_ ?_ ?_
    · show (o.pattern.map jsTrim).getD [] = []
      rw [hpat]
      rfl
    · intro hnil
      rw [hnil] at hlen
      simp at hlen
      omega
    · exact fun h => hluhn h
    · exact fun h => hmod h

/-- C3 witness: the round-trip at the default options with the constant-zero rng. -/
theorem generate_validate_roundtrip_witness :
    ∃ out, generateId ({} : GenerateOptions) (fun _ => 0) = some out ∧
      validateId out (GenerateOptions.toValidate {}) = some true :=
  generate_validate_roundtrip {} (fun _ => 0) rfl (fun _ => ⟨le_refl 0, by norm_num⟩)
    (by decide) (fun h => absurd h (by decide)) (fun h => absurd h (by decide))
    (fun t s ht _ _ => by simp at ht) (fun s hs => by simp at hs)


/-! ### Pattern-mode equations for generateIdCore -/

lemma exists_hash_ne :
    ∀ (p : List Char) (hp : ℕ), 2 ≤ p.count '#' →
      ∃ j, j < p.length ∧ p.getD j ' ' = '#' ∧ j ≠ hp := by
  intro p
  induction p with
  | nil => intro hp h; simp at h
  | cons c rest ih =>
    intro hp h
    rw [List.count_cons] at h
    by_cases hc : c = '#'
    · by_cases hhp : hp = 0
      · have hrest : 1 ≤ rest.count '#' := by
          rw [if_pos (by simp [hc])] at h
          omega
        have hmem : '#' ∈ rest := List.count_pos_iff.mp (by omega)
        obtain ⟨m, hm, hval⟩ := List.getElem_of_mem hmem
        refine ⟨m + 1, by simp only [List.length_cons]; omega, ?_, by omega⟩
        rw [List.getD_cons_succ, List.getD_eq_getElem _ _ hm]
        exact hval
      · exact ⟨0, by simp only [List.length_cons]; omega, by simpa using hc, fun h0 => hhp h0.symm⟩
    · have hrest : 2 ≤ rest.count '#' := by
        rw [if_neg (by simp [hc])] at h
        omega
      obtain ⟨j, hj1, hj2, hj3⟩ := ih (hp - 1) hrest
      by_cases hhp : hp = 0
      · exact ⟨j + 1, by simp only [List.length_cons]; omega,
          by simpa only [List.getD_cons_succ] using hj2, by omega⟩
      · refine ⟨j + 1, by simp only [List.length_cons]; omega,
          by simpa only [List.getD_cons_succ] using hj2, ?_⟩
        omega

/-- The same options with the grouping-related fields cleared. -/
def GenerateOptions.clearGrouping (o : GenerateOptions) : GenerateOptions :=
  { o with
    groups := Option.none
    groupSize := Option.none
    separator := Option.none }

lemma generateIdCore_grouping_irrelevant (o : GenerateOptions) (rng : ℕ → ℚ)
    (h : o.pattern.getD [] ≠ [] ∧ jsTrim (o.pattern.getD []) ≠ []) :
    generateIdCore o rng = generateIdCore o.clearGrouping rng := by
  simp only [generateIdCore]
  rw [if_pos h,
    if_pos (show o.clearGrouping.pattern.getD [] ≠ [] ∧
      jsTrim (o.clearGrouping.pattern.getD []) ≠ [] from h)]
  rfl

lemma generateIdCore_pattern_none_eq (o : GenerateOptions) (rng : ℕ → ℚ)
    (hcond : o.pattern.getD [] ≠ [] ∧ jsTrim (o.pattern.getD []) ≠ [])
    (halgo : o.resAlgorithm = Algorithm.none) :
    generateIdCore o rng =
      (some (fillPattern rng o.resCharset false
          (lastHashIndex (jsTrim (o.pattern.getD []))) (jsTrim (o.pattern.getD [])) 0 0).1,
       (fillPattern rng o.resCharset false
          (lastHashIndex (jsTrim (o.pattern.getD []))) (jsTrim (o.pattern.getD [])) 0 0).2) := by
  simp only [generateIdCore]
  rw [if_pos hcond, show o.algorithm.getD Algorithm.none = Algorithm.none from halgo]
  rfl

lemma generateIdCore_pattern_luhn_eq (o : GenerateOptions) (rng : ℕ → ℚ)
    (hcond : o.pattern.getD [] ≠ [] ∧ jsTrim (o.pattern.getD []) ≠ [])
    (halgo : o.resAlgorithm = Algorithm.luhn) (hcs : o.resCharset = Charset.numeric)
    {hpos : ℕ} (hlhi : lastHashIndex (jsTrim (o.pattern.getD [])) = some hpos) :
    generateIdCore o rng =
      (match luhnChecksumDigit (extractBody (jsTrim (o.pattern.getD []))
          (fillPattern rng Charset.numeric true (some hpos) (jsTrim (o.pattern.getD [])) 0 0).1
          0 hpos) with
       | some d =>
         (some (injectCheck hpos (jsIntStr (d : ℤ))
            (fillPattern rng Charset.numeric true (some hpos) (jsTrim (o.pattern.getD [])) 0 0).1 0),
          (fillPattern rng Charset.numeric true (some hpos) (jsTrim (o.pattern.getD [])) 0 0).2)
       | Option.none =>
         (Option.none,
          (fillPattern rng Charset.numeric true (some hpos) (jsTrim (o.pattern.getD [])) 0 0).2)) := by
  simp only [generateIdCore]
  rw [if_pos hcond, show o.algorithm.getD Algorithm.none = Algorithm.luhn from halgo,
    show o.charset.getD Charset.numeric = Charset.numeric from hcs, hlhi]
  rfl

lemma generateIdCore_pattern_mod36_eq (o : GenerateOptions) (rng : ℕ → ℚ)
    (hcond : o.pattern.getD [] ≠ [] ∧ jsTrim (o.pattern.getD []) ≠ [])
    (halgo : o.resAlgorithm = Algorithm.mod36) (hcs : o.resCharset = Charset.alphanumeric)
    {hpos : ℕ} (hlhi : lastHashIndex (jsTrim (o.pattern.getD [])) = some hpos) :
    generateIdCore o rng =
      (match mod36CheckChar (extractBody (jsTrim (o.pattern.getD []))
          (fillPattern rng Charset.alphanumeric true (some hpos) (jsTrim (o.pattern.getD [])) 0 0).1
          0 hpos) with
       | some c =>
         (some (injectCheck hpos [c]
            (fillPattern rng Charset.alphanumeric true (some hpos)
              (jsTrim (o.pattern.getD [])) 0 0).1 0),
          (fillPattern rng Charset.alphanumeric true (some hpos)
            (jsTrim (o.pattern.getD [])) 0 0).2)
       | Option.none =>
         (Option.none,
          (fillPattern rng Charset.alphanumeric true (some hpos)
            (jsTrim (o.pattern.getD [])) 0 0).2)) := by
  simp only [generateIdCore]
  rw [if_pos hcond, show o.algorithm.getD Algorithm.none = Algorithm.mod36 from halgo,
    show o.charset.getD Charset.numeric = Charset.alphanumeric from hcs, hlhi]
  rfl


lemma generateIdCore_pattern_luhn_badcs (o : GenerateOptions) (rng : ℕ → ℚ)
    (hcond : o.pattern.getD [] ≠ [] ∧ jsTrim (o.pattern.getD []) ≠ [])
    (halgo : o.resAlgorithm = Algorithm.luhn) (hcs : o.resCharset ≠ Charset.numeric)
    {hpos : ℕ} (hlhi : lastHashIndex (jsTrim (o.pattern.getD [])) = some hpos) :
    (generateIdCore o rng).1 = Option.none := by
  simp only [generateIdCore]
  rw [if_pos hcond, show o.algorithm.getD Algorithm.none = Algorithm.luhn from halgo, hlhi,
    if_pos hcs]
  rfl

/-! ## Claim C7: pattern-mode generation shape -/

/-- C7 (counterexample): a pattern with a '#' and algorithm luhn but charset
alphanumeric makes generateId throw (charset/algorithm compatibility is also enforced in
pattern mode), so the claim's hypotheses — any pattern with at least one '#' when an
algorithm is selected — are not sufficient for a string to be returned. -/
theorem pattern_generation_incompatible_counterexample :
    generateId
      { pattern := some ['#', '#'], algorithm := some Algorithm.luhn,
        charset := some Charset.alphanumeric } (fun _ => 0) = Option.none :=
  generateIdCore_pattern_luhn_badcs
    { pattern := some ['#', '#'], algorithm := some Algorithm.luhn,
      charset := some Charset.alphanumeric }
    (fun _ => 0) (by decide) rfl (by decide) (show lastHashIndex
      (jsTrim (['#', '#'] : List Char)) = some 1 by decide)

/-- C7 (amended): in pattern mode (pattern non-empty after trimming; when an algorithm
is selected the pattern has a '#', its charset is compatible, and mod36 additionally has
a second '#' so the checksum body is non-empty) generateId returns a string of exactly
the trimmed pattern's length that reproduces every literal verbatim and carries a
charset-alphabet character in every slot; the groups, groupSize and separator options
have no effect on the result. -/
theorem pattern_generation_shape :
    ∀ (o : GenerateOptions) (rng : ℕ → ℚ),
      (∀ i, 0 ≤ rng i ∧ rng i < 1) →
      jsTrim (o.pattern.getD []) ≠ [] →
      (o.resAlgorithm ≠ Algorithm.none →
        '#' ∈ jsTrim (o.pattern.getD []) ∧
        (o.resAlgorithm = Algorithm.luhn → o.resCharset = Charset.numeric) ∧
        (o.resAlgorithm = Algorithm.mod36 → o.resCharset = Charset.alphanumeric) ∧
        (o.resAlgorithm = Algorithm.mod36 → 2 ≤ (jsTrim (o.pattern.getD [])).count '#')) →
      ((∃ out, generateId o rng = some out ∧
          out.length = (jsTrim (o.pattern.getD [])).length ∧
          (∀ j, j < (jsTrim (o.pattern.getD [])).length →
            (jsTrim (o.pattern.getD [])).getD j ' ' ≠ '#' →
            out.getD j ' ' = (jsTrim (o.pattern.getD [])).getD j ' ') ∧
          (∀ j, j < (jsTrim (o.pattern.getD [])).length →
            (jsTrim (o.pattern.getD [])).getD j ' ' = '#' →
            out.getD j ' ' ∈ alphabetOf o.resCharset)) ∧
        generateIdCore o rng = generateIdCore o.clearGrouping rng) := by
  intro o rng hr htrim halgoH
  have hrawne : o.pattern.getD [] ≠ [] := fun hnil => htrim (by rw [hnil]; rfl)
  have hcond : o.pattern.getD [] ≠ [] ∧ jsTrim (o.pattern.getD []) ≠ [] := ⟨hrawne, htrim⟩
  refine ⟨?_, generateIdCore_grouping_irrelevant o rng hcond⟩
  have htfix : jsTrim (jsTrim (o.pattern.getD [])) = jsTrim (o.pattern.getD []) :=
    jsTrim_idem _
  rcases halgo : o.resAlgorithm with _ | _ | _
  · -- no checksum algorithm
    have heq := generateIdCore_pattern_none_eq o rng hcond halgo
    refine ⟨(fillPattern rng o.resCharset false
        (lastHashIndex (jsTrim (o.pattern.getD []))) (jsTrim (o.pattern.getD [])) 0 0).1,
      ?_, ?_, ?_, ?_⟩
    · unfold generateId
      rw [heq]
    · exact fillPattern_length rng o.resCharset false _ _ 0 0
    · intro j hj hne
      exact (fillPattern_getD rng o.resCharset false
        (lastHashIndex (jsTrim (o.pattern.getD []))) (jsTrim (o.pattern.getD [])) 0 0 j hj).1 hne
    · intro j hj hhash
      have h2 := (fillPattern_getD rng o.resCharset false
        (lastHashIndex (jsTrim (o.pattern.getD []))) (jsTrim (o.pattern.getD [])) 0 0 j hj).2 hhash
      rcases h2 with ⟨hb, _, _⟩ | ⟨_, m, hm⟩
      · exact absurd hb (by decide)
      · rw [hm]
        rcases hcs : o.resCharset with _ | _
        · exact randChar_numeric_mem (hr m).1 (hr m).2
        · exact randChar_alnum_mem (hr m).1 (hr m).2
  · -- luhn
    obtain ⟨hhash, hcl, _, _⟩ := halgoH (by rw [halgo]; decide)
    have hcs := hcl halgo
    obtain ⟨hpos, hlhi⟩ := lastHashIndex_some_of_hash htfix hhash
    obtain ⟨hposlt, hposhash⟩ := lastHashIndex_spec htfix hlhi
    have heq := generateIdCore_pattern_luhn_eq o rng hcond halgo hcs hlhi
    have hfl : (fillPattern rng Charset.numeric true (some hpos)
        (jsTrim (o.pattern.getD [])) 0 0).1.length = (jsTrim (o.pattern.getD [])).length :=
      fillPattern_length rng Charset.numeric true (some hpos) _ 0 0
    have hbodydig : (extractBody (jsTrim (o.pattern.getD []))
        (fillPattern rng Charset.numeric true (some hpos)
          (jsTrim (o.pattern.getD [])) 0 0).1 0 hpos).all Char.isDigit = true := by
      refine List.all_eq_true.mpr ?_
      intro c hc
      obtain ⟨j, hj1, hj2, hj3, hj4, hj5⟩ := extractBody_mem _ _ 0 hpos c hc
      have h2 := (fillPattern_getD rng Charset.numeric true (some hpos)
        (jsTrim (o.pattern.getD [])) 0 0 j hj1).2 hj3
      rcases h2 with ⟨_, hsome, _⟩ | ⟨_, m, hm⟩
      · exfalso
        have : hpos = 0 + j := by
          have := Option.some.injEq hpos (0 + j) ▸ hsome
          simpa using this
        omega
      · rw [hj5, hm]
        exact isDigit_of_mem_NUM (randChar_numeric_mem (hr m).1 (hr m).2)
    have hld := luhnChecksumDigit_eq_of_digits hbodydig
    set D := (10 - luhnPosSum 0 (extractBody (jsTrim (o.pattern.getD []))
      (fillPattern rng Charset.numeric true (some hpos)
        (jsTrim (o.pattern.getD [])) 0 0).1 0 hpos) % 10) % 10 with hD
    have hD9 : D ≤ 9 := by
      have : D < 10 := Nat.mod_lt _ (by norm_num)
      omega
    have hstr : jsIntStr (D : ℤ) = [Char.ofNat (48 + D)] := by
      have := jsIntStr_digit (i := (D : ℤ)) (by exact_mod_cast Nat.zero_le D)
        (by exact_mod_cast (by omega : D < 10))
      simpa using this
    obtain ⟨hDmem, _, _⟩ := digitChar_props hD9
    obtain ⟨hinjlen, hinjget⟩ := injectCheck_single
      (fillPattern rng Charset.numeric true (some hpos) (jsTrim (o.pattern.getD [])) 0 0).1
      0 hpos (Char.ofNat (48 + D))
    refine ⟨injectCheck hpos [Char.ofNat (48 + D)]
      (fillPattern rng Charset.numeric true (some hpos) (jsTrim (o.pattern.getD [])) 0 0).1 0,
      ?_, ?_, ?_, ?_⟩
    · unfold generateId
      rw [heq]
      simp only [hld]
      rw [hstr]
    · rw [hinjlen, hfl]
    · intro j hj hne
      have hfg := (fillPattern_getD rng Charset.numeric true (some hpos)
        (jsTrim (o.pattern.getD [])) 0 0 j hj).1 hne
      rw [hinjget j (by omega), if_neg (by rw [hfg]; exact fun hcon => hne hcon.1), hfg]
    · intro j hj hhash
      by_cases hjp : j = hpos
      · subst hjp
        have hfg := (fillPattern_getD rng Charset.numeric true (some j)
          (jsTrim (o.pattern.getD [])) 0 0 j hj).2 hhash
        rcases hfg with ⟨_, _, hsharp⟩ | ⟨hnot, _⟩
        · rw [hinjget j (by omega), if_pos ⟨hsharp, by omega⟩]
          rw [hcs]
          exact hDmem
        · exact absurd ⟨rfl, by simp⟩ hnot
      · have hfg := (fillPattern_getD rng Charset.numeric true (some hpos)
          (jsTrim (o.pattern.getD [])) 0 0 j hj).2 hhash
        rcases hfg with ⟨_, hsome, _⟩ | ⟨_, m, hm⟩
        · exfalso
          have : hpos = 0 + j := by
            have := Option.some.injEq hpos (0 + j) ▸ hsome
            simpa using this
          omega
        · rw [hinjget j (by omega), if_neg (fun hcon => hjp (by omega)), hm, hcs]
          exact randChar_numeric_mem (hr m).1 (hr m).2
  · -- mod36
    obtain ⟨hhash, _, hcm, hcount⟩ := halgoH (by rw [halgo]; decide)
    have hcs := hcm halgo
    have hc2 := hcount halgo
    obtain ⟨hpos, hlhi⟩ := lastHashIndex_some_of_hash htfix hhash
    obtain ⟨hposlt, hposhash⟩ := lastHashIndex_spec htfix hlhi
    have heq := generateIdCore_pattern_mod36_eq o rng hcond halgo hcs hlhi
    have hfl : (fillPattern rng Charset.alphanumeric true (some hpos)
        (jsTrim (o.pattern.getD [])) 0 0).1.length = (jsTrim (o.pattern.getD [])).length :=
      fillPattern_length rng Charset.alphanumeric true (some hpos) _ 0 0
    have hbody36 : (extractBody (jsTrim (o.pattern.getD []))
        (fillPattern rng Charset.alphanumeric true (some hpos)
          (jsTrim (o.pattern.getD [])) 0 0).1 0 hpos).all isBase36 = true := by
      refine List.all_eq_true.mpr ?_
      intro c hc
      obtain ⟨j, hj1, hj2, hj3, hj4, hj5⟩ := extractBody_mem _ _ 0 hpos c hc
      have h2 := (fillPattern_getD rng Charset.alphanumeric true (some hpos)
        (jsTrim (o.pattern.getD [])) 0 0 j hj1).2 hj3
      rcases h2 with ⟨_, hsome, _⟩ | ⟨_, m, hm⟩
      · exfalso
        have : hpos = 0 + j := by
          have := Option.some.injEq hpos (0 + j) ▸ hsome
          simpa using this
        omega
      · rw [hj5, hm]
        exact isBase36_of_mem_BASE36 (randChar_alnum_mem (hr m).1 (hr m).2)
    have hbne : extractBody (jsTrim (o.pattern.getD []))
        (fillPattern rng Charset.alphanumeric true (some hpos)
          (jsTrim (o.pattern.getD [])) 0 0).1 0 hpos ≠ [] := by
      refine extractBody_ne_nil _ _ 0 hpos (by omega) ?_
      obtain ⟨j, hj1, hj2, hj3⟩ := exists_hash_ne (jsTrim (o.pattern.getD [])) hpos hc2
      exact ⟨j, hj1, hj2, by omega⟩
    obtain ⟨chk, hchk, hchkmem⟩ := mod36CheckChar_some hbne hbody36
    obtain ⟨hinjlen, hinjget⟩ := injectCheck_single
      (fillPattern rng Charset.alphanumeric true (some hpos)
        (jsTrim (o.pattern.getD [])) 0 0).1 0 hpos chk
    refine ⟨injectCheck hpos [chk]
      (fillPattern rng Charset.alphanumeric true (some hpos)
        (jsTrim (o.pattern.getD [])) 0 0).1 0, ?_, ?_, ?_, ?_⟩
    · unfold generateId
      rw [heq]
      simp only [hchk]
    · rw [hinjlen, hfl]
    · intro j hj hne
      have hfg := (fillPattern_getD rng Charset.alphanumeric true (some hpos)
        (jsTrim (o.pattern.getD [])) 0 0 j hj).1 hne
      rw [hinjget j (by omega), if_neg (by rw [hfg]; exact fun hcon => hne hcon.1), hfg]
    · intro j hj hhash
      by_cases hjp : j = hpos
      · subst hjp
        have hfg := (fillPattern_getD rng Charset.alphanumeric true (some j)
          (jsTrim (o.pattern.getD [])) 0 0 j hj).2 hhash
        rcases hfg with ⟨_, _, hsharp⟩ | ⟨hnot, _⟩
        · rw [hinjget j (by omega), if_pos ⟨hsharp, by omega⟩]
          rw [hcs]
          exact hchkmem
        · exact absurd ⟨rfl, by simp⟩ hnot
      · have hfg := (fillPattern_getD rng Charset.alphanumeric true (some hpos)
          (jsTrim (o.pattern.getD [])) 0 0 j hj).2 hhash
        rcases hfg with ⟨_, hsome, _⟩ | ⟨_, m, hm⟩
        · exfalso
          have : hpos = 0 + j := by
            have := Option.some.injEq hpos (0 + j) ▸ hsome
            simpa using this
          omega
        · rw [hinjget j (by omega), if_neg (fun hcon => hjp (by omega)), hm, hcs]
          exact randChar_alnum_mem (hr m).1 (hr m).2

/-- C7 witness: the amended statement at the PROMO pattern with no algorithm. -/
theorem pattern_generation_shape_witness :
    (∃ out, generateId
        ({ pattern := some ("PROMO-###-###".data), charset := some Charset.alphanumeric } :
          GenerateOptions) (fun _ => 0) = some out ∧
      out.length = (jsTrim ("PROMO-###-###".data)).length ∧
      (∀ j, j < (jsTrim ("PROMO-###-###".data)).length →
        (jsTrim ("PROMO-###-###".data)).getD j ' ' ≠ '#' →
        out.getD j ' ' = (jsTrim ("PROMO-###-###".data)).getD j ' ') ∧
      (∀ j, j < (jsTrim ("PROMO-###-###".data)).length →
        (jsTrim ("PROMO-###-###".data)).getD j ' ' = '#' →
        out.getD j ' ' ∈ alphabetOf
          ({ pattern := some ("PROMO-###-###".data), charset := some Charset.alphanumeric } :
            GenerateOptions).resCharset)) ∧
    generateIdCore
        ({ pattern := some ("PROMO-###-###".data), charset := some Charset.alphanumeric } :
          GenerateOptions) (fun _ => 0) =
      generateIdCore
        (GenerateOptions.clearGrouping
          { pattern := some ("PROMO-###-###".data), charset := some Charset.alphanumeric })
        (fun _ => 0) := by
  have h := pattern_generation_shape
    { pattern := some ("PROMO-###-###".data), charset := some Charset.alphanumeric }
    (fun _ => 0) (fun _ => ⟨le_refl 0, by norm_num⟩) (by decide)
    (fun hcon => absurd rfl hcon)
  exact h

/-! ## Claim C6: checksum sensitivity -/

lemma getD_irrel {w : List Char} {j : ℕ} (h : j < w.length) (d d' : Char) :
    w.getD j d = w.getD j d' := by
  rw [List.getD_eq_getElem _ _ h, List.getD_eq_getElem _ _ h]

lemma dropLast_concat_getLastD {w : List Char} (h : w ≠ []) (d : Char) :
    w.dropLast ++ [w.getLastD d] = w := by
  rcases List.eq_nil_or_concat w with rfl | ⟨t, b, hw⟩
  · exact absurd rfl h
  · rw [hw, List.concat_eq_append, List.dropLast_concat, List.getLastD_concat]

lemma validateId_pattern_none_eq (v : ValidateOptions) (w : List Char)
    (hpat : (v.pattern.map jsTrim).getD [] ≠ [])
    (halgo : v.algorithm.getD Algorithm.none = Algorithm.none) :
    validateId w v =
      some (patternMatch ((v.pattern.map jsTrim).getD []) (v.charset.getD Charset.numeric) w) := by
  simp only [validateId]
  rw [if_pos hpat, if_pos halgo]

lemma validateId_pattern_nohash_eq (v : ValidateOptions) (w : List Char)
    (hpat : (v.pattern.map jsTrim).getD [] ≠ [])
    (halgo : v.algorithm.getD Algorithm.none ≠ Algorithm.none)
    (hlhi : lastHashIndex ((v.pattern.map jsTrim).getD []) = Option.none) :
    validateId w v = some false := by
  simp only [validateId]
  rw [if_pos hpat, if_neg halgo, hlhi]

lemma validateId_pattern_luhn_eq (v : ValidateOptions) (w : List Char) {hp : ℕ}
    (hpat : (v.pattern.map jsTrim).getD [] ≠ [])
    (halgo : v.algorithm.getD Algorithm.none = Algorithm.luhn)
    (hlhi : lastHashIndex ((v.pattern.map jsTrim).getD []) = some hp) :
    validateId w v =
      (if !(patternMatch ((v.pattern.map jsTrim).getD []) (v.charset.getD Charset.numeric) w)
       then some false
       else if v.charset.getD Charset.numeric ≠ Charset.numeric then some false
       else if !(!(extractBody ((v.pattern.map jsTrim).getD []) w 0 hp).isEmpty &&
           (extractBody ((v.pattern.map jsTrim).getD []) w 0 hp).all Char.isDigit)
       then some false
       else
         match luhnChecksumDigit (extractBody ((v.pattern.map jsTrim).getD []) w 0 hp) with
         | some d => some (jsIntStr (d : ℤ) == [w.getD hp 'u'])
         | Option.none => Option.none) := by
  simp only [validateId]
  rw [if_pos hpat, halgo, if_neg (by decide), hlhi]

lemma validateId_pattern_mod36_eq (v : ValidateOptions) (w : List Char) {hp : ℕ}
    (hpat : (v.pattern.map jsTrim).getD [] ≠ [])
    (halgo : v.algorithm.getD Algorithm.none = Algorithm.mod36)
    (hlhi : lastHashIndex ((v.pattern.map jsTrim).getD []) = some hp) :
    validateId w v =
      (if !(patternMatch ((v.pattern.map jsTrim).getD []) (v.charset.getD Charset.numeric) w)
       then some false
       else if v.charset.getD Charset.numeric ≠ Charset.alphanumeric then some false
       else
         match mod36CheckChar
             ((extractBody ((v.pattern.map jsTrim).getD []) w 0 hp).map Char.toUpper) with
         | some c => some (c == Char.toUpper (w.getD hp 'u'))
         | Option.none => Option.none) := by
  simp only [validateId]
  rw [if_pos hpat, halgo, if_neg (by decide), hlhi]

lemma validateId_fixed_luhn_eq (v : ValidateOptions) (w : List Char)
    (hpat : (v.pattern.map jsTrim).getD [] = [])
    (halgo : v.algorithm.getD Algorithm.none = Algorithm.luhn) :
    validateId w v =
      (if (mapToCharset w (v.charset.getD Charset.numeric)).length ≠
          v.totalLength.getD (v.groups.getD 4 * v.groupSize.getD 4) then some false
       else if !(!(mapToCharset w (v.charset.getD Charset.numeric)).isEmpty &&
           (mapToCharset w (v.charset.getD Charset.numeric)).all Char.isDigit) then some false
       else some (luhnValidate (mapToCharset w (v.charset.getD Charset.numeric)))) := by
  simp only [validateId]
  rw [if_neg (by simp [hpat]), halgo]

lemma validateId_fixed_mod36_eq (v : ValidateOptions) (w : List Char)
    (hpat : (v.pattern.map jsTrim).getD [] = [])
    (halgo : v.algorithm.getD Algorithm.none = Algorithm.mod36) :
    validateId w v =
      (if (mapToCharset w (v.charset.getD Charset.numeric)).length ≠
          v.totalLength.getD (v.groups.getD 4 * v.groupSize.getD 4) then some false
       else if !(!(mapToCharset w (v.charset.getD Charset.numeric)).isEmpty &&
           (mapToCharset w (v.charset.getD Charset.numeric)).all isBase36) then some false
       else some (mod36Validate (mapToCharset w (v.charset.getD Charset.numeric)))) := by
  simp only [validateId]
  rw [if_neg (by simp [hpat]), halgo]

lemma luhnValidate_last_flip {A : List Char} {d d' : Char}
    (htrue : luhnValidate (A ++ [d]) = true)
    (hd' : (A ++ [d']).all Char.isDigit = true) (hne : d' ≠ d) :
    luhnValidate (A ++ [d']) = false := by
  obtain ⟨hlen, hdig⟩ := luhnValidate_true_elim htrue
  have hddig : d.isDigit = true := List.all_eq_true.mp hdig d (by simp)
  have hd'dig : d'.isDigit = true := List.all_eq_true.mp hd' d' (by simp)
  unfold luhnValidate at htrue ⊢
  rw [if_pos ⟨hlen, hdig⟩, List.dropLast_concat, List.getLastD_concat] at htrue
  rw [if_pos ⟨by simpa using hlen, hd'⟩, List.dropLast_concat, List.getLastD_concat]
  rcases hcd : luhnChecksumDigit A with _ | e
  · rw [hcd] at htrue
  · rw [hcd] at htrue
    simp only [beq_iff_eq] at htrue
    show (e == digitVal d') = false
    rcases hab : e == digitVal d' with _ | _
    · rfl
    · have := eq_of_beq hab
      rw [htrue] at this
      exact absurd (digitVal_inj hddig hd'dig this) (fun hcon => hne hcon.symm)

lemma mod36Validate_last_flip {A : List Char} {d d' : Char}
    (htrue : mod36Validate (A ++ [d]) = true)
    (hd' : (A ++ [d']).all isBase36 = true) (hne : d' ≠ d) :
    mod36Validate (A ++ [d']) = false := by
  obtain ⟨hlen, hb⟩ := mod36Validate_true_elim htrue
  unfold mod36Validate at htrue ⊢
  rw [if_pos ⟨hlen, hb⟩, List.dropLast_concat, List.getLastD_concat] at htrue
  rw [if_pos ⟨by simpa using hlen, hd'⟩, List.dropLast_concat, List.getLastD_concat]
  rcases hcd : mod36CheckChar A with _ | ch
  · rw [hcd] at htrue
  · rw [hcd] at htrue
    simp only [beq_iff_eq] at htrue
    show (ch == d') = false
    rcases hab : ch == d' with _ | _
    · rfl
    · have := eq_of_beq hab
      rw [htrue] at this
      exact absurd this (fun hcon => hne hcon.symm)

lemma sensitivity_pattern_literal (v : ValidateOptions) (u : List Char) (j : ℕ)
    (hpat : (v.pattern.map jsTrim).getD [] ≠ [])
    (hjlt : j < ((v.pattern.map jsTrim).getD []).length)
    (hlit : ((v.pattern.map jsTrim).getD []).getD j ' ' ≠ '#')
    (hne : u.getD j ' ' ≠ ((v.pattern.map jsTrim).getD []).getD j ' ') :
    validateId u v = some false := by
  have hpm : patternMatch ((v.pattern.map jsTrim).getD []) (v.charset.getD Charset.numeric) u
      = false := by
    rcases hb : patternMatch ((v.pattern.map jsTrim).getD []) (v.charset.getD Charset.numeric) u
      with _ | _
    · rfl
    · exfalso
      have h2 := (patternMatch_iff _ _ _ |>.mp hb).2 j hjlt
      rw [if_neg hlit] at h2
      exact hne h2
  rcases halgoeq : v.algorithm.getD Algorithm.none with _ | _ | _
  · rw [validateId_pattern_none_eq v u hpat halgoeq, hpm]
  · rcases hlhi : lastHashIndex ((v.pattern.map jsTrim).getD []) with _ | hp
    · exact validateId_pattern_nohash_eq v u hpat (by rw [halgoeq]; decide) hlhi
    · rw [validateId_pattern_luhn_eq v u hpat halgoeq hlhi, hpm]
      simp
  · rcases hlhi : lastHashIndex ((v.pattern.map jsTrim).getD []) with _ | hp
    · exact validateId_pattern_nohash_eq v u hpat (by rw [halgoeq]; decide) hlhi
    · rw [validateId_pattern_mod36_eq v u hpat halgoeq hlhi, hpm]
      simp

lemma sensitivity_pattern_slot (v : ValidateOptions) (w : List Char) (hp : ℕ) (c' : Char)
    (hpat : (v.pattern.map jsTrim).getD [] ≠ [])
    (halgo : v.algorithm.getD Algorithm.none ≠ Algorithm.none)
    (hlhi : lastHashIndex ((v.pattern.map jsTrim).getD []) = some hp)
    (hvalid : validateId w v = some true)
    (hflip : c' ≠ w.getD hp 'u') :
    validateId (w.set hp c') v = some false := by
  have htfix : jsTrim ((v.pattern.map jsTrim).getD []) = (v.pattern.map jsTrim).getD [] := by
    rcases hvp : v.pattern with _ | raw
    · rw [hvp] at hpat
      simp at hpat
    · simp only [Option.map_some', Option.getD_some]
      exact jsTrim_idem raw
  obtain ⟨hplt, hphash⟩ := lastHashIndex_spec htfix hlhi
  rcases halgoeq : v.algorithm.getD Algorithm.none with _ | _ | _
  · exact absurd halgoeq halgo
  · -- luhn
    rw [validateId_pattern_luhn_eq v w hpat halgoeq hlhi] at hvalid
    rcases hpm : patternMatch ((v.pattern.map jsTrim).getD [])
        (v.charset.getD Charset.numeric) w with _ | _
    · rw [hpm] at hvalid
      simp at hvalid
    · rw [if_neg (by rw [hpm]; decide)] at hvalid
      by_cases hcs : v.charset.getD Charset.numeric ≠ Charset.numeric
      · rw [if_pos hcs] at hvalid
        simp at hvalid
      rw [if_neg hcs] at hvalid
      by_cases hg : (!(!(extractBody ((v.pattern.map jsTrim).getD []) w 0 hp).isEmpty &&
          (extractBody ((v.pattern.map jsTrim).getD []) w 0 hp).all Char.isDigit)) = true
      · rw [if_pos hg] at hvalid
        simp at hvalid
      rw [if_neg hg] at hvalid
      rcases hld : luhnChecksumDigit (extractBody ((v.pattern.map jsTrim).getD []) w 0 hp)
        with _ | d
      · simp only [hld] at hvalid
        exact absurd hvalid (by simp)
      simp only [hld, Option.some.injEq, beq_iff_eq] at hvalid
      have hwlen : w.length = ((v.pattern.map jsTrim).getD []).length :=
        (patternMatch_iff _ _ _ |>.mp hpm).1
      have hplt' : hp < w.length := by rw [hwlen]; exact hplt
      rw [validateId_pattern_luhn_eq v (w.set hp c') hpat halgoeq hlhi]
      rcases hpm' : patternMatch ((v.pattern.map jsTrim).getD [])
          (v.charset.getD Charset.numeric) (w.set hp c') with _ | _
      · simp
      · rw [if_neg (by decide), if_neg hcs]
        have hbe : extractBody ((v.pattern.map jsTrim).getD []) (w.set hp c') 0 hp =
            extractBody ((v.pattern.map jsTrim).getD []) w 0 hp := by
          refine extractBody_congr _ _ _ 0 hp (by rw [List.length_set]) ?_
          intro j hj hnej
          rw [getD_set, if_neg (fun hcon => hnej (by rw [Nat.zero_add]; exact hcon.1))]
        rw [hbe, if_neg hg]
        simp only [hld]
        have hset : (w.set hp c').getD hp 'u' = c' := by
          rw [getD_set]
          exact if_pos ⟨rfl, hplt'⟩
        rw [hset, hvalid]
        have hlne : ([w.getD hp 'u'] : List Char) ≠ [c'] := by
          intro hcon
          injection hcon with h1 _
          exact hflip h1.symm
        have hbf : (([w.getD hp 'u'] : List Char) == [c']) = false := by
          rcases hab : (([w.getD hp 'u'] : List Char) == [c']) with _ | _
          · rfl
          · exact absurd (eq_of_beq hab) hlne
        rw [hbf]
  · -- mod36
    rw [validateId_pattern_mod36_eq v w hpat halgoeq hlhi] at hvalid
    rcases hpm : patternMatch ((v.pattern.map jsTrim).getD [])
        (v.charset.getD Charset.numeric) w with _ | _
    · rw [hpm] at hvalid
      simp at hvalid
    · rw [if_neg (by rw [hpm]; decide)] at hvalid
      by_cases hcs : v.charset.getD Charset.numeric ≠ Charset.alphanumeric
      · rw [if_pos hcs] at hvalid
        simp at hvalid
      rw [if_neg hcs] at hvalid
      have hcsa : v.charset.getD Charset.numeric = Charset.alphanumeric := not_not.mp hcs
      rcases hmc : mod36CheckChar
          ((extractBody ((v.pattern.map jsTrim).getD []) w 0 hp).map Char.toUpper) with _ | ch
      · simp only [hmc] at hvalid
        exact absurd hvalid (by simp)
      simp only [hmc, Option.some.injEq, beq_iff_eq] at hvalid
      have hwlen : w.length = ((v.pattern.map jsTrim).getD []).length :=
        (patternMatch_iff _ _ _ |>.mp hpm).1
      have hplt' : hp < w.length := by rw [hwlen]; exact hplt
      have hwb : isBase36 (w.getD hp 'u') = true := by
        have hcls := (patternMatch_iff _ _ _ |>.mp hpm).2 hp hplt
        rw [if_pos hphash, hcsa] at hcls
        rw [getD_irrel hplt' ' ' 'u'] at hcls
        simpa [classMember] using hcls
      rw [toUpper_of_isBase36 hwb] at hvalid
      rw [validateId_pattern_mod36_eq v (w.set hp c') hpat halgoeq hlhi]
      rcases hpm' : patternMatch ((v.pattern.map jsTrim).getD [])
          (v.charset.getD Charset.numeric) (w.set hp c') with _ | _
      · simp
      · rw [if_neg (by decide), if_neg hcs]
        have hbe : extractBody ((v.pattern.map jsTrim).getD []) (w.set hp c') 0 hp =
            extractBody ((v.pattern.map jsTrim).getD []) w 0 hp := by
          refine extractBody_congr _ _ _ 0 hp (by rw [List.length_set]) ?_
          intro j hj hnej
          rw [getD_set, if_neg (fun hcon => hnej (by rw [Nat.zero_add]; exact hcon.1))]
        rw [hbe]
        simp only [hmc]
        have hset : (w.set hp c').getD hp 'u' = c' := by
          rw [getD_set]
          exact if_pos ⟨rfl, hplt'⟩
        have hc'b : isBase36 c' = true := by
          have hcls := (patternMatch_iff _ _ _ |>.mp hpm').2 hp hplt
          rw [if_pos hphash, hcsa] at hcls
          have hl2 : hp < (w.set hp c').length := by rw [List.length_set]; exact hplt'
          rw [getD_irrel hl2 ' ' 'u', hset] at hcls
          simpa [classMember] using hcls
        rw [hset, toUpper_of_isBase36 hc'b]
        have hbf : (ch == c') = false := by
          rcases hab : ch == c' with _ | _
          · rfl
          · have := eq_of_beq hab
            rw [hvalid] at this
            exact absurd this (fun hcon => hflip hcon.symm)
        rw [hbf]

lemma sensitivity_fixed_last (v : ValidateOptions) (w : List Char) (c' : Char)
    (hpat : (v.pattern.map jsTrim).getD [] = [])
    (halgo : v.algorithm.getD Algorithm.none ≠ Algorithm.none)
    (hvalid : validateId w v = some true)
    (hdiff : mapToCharset [c'] (v.charset.getD Charset.numeric) ≠
      mapToCharset [w.getLastD 'u'] (v.charset.getD Charset.numeric)) :
    validateId (w.dropLast ++ [c']) v = some false := by
  rcases halgoeq : v.algorithm.getD Algorithm.none with _ | _ | _
  · exact absurd halgoeq halgo
  · -- luhn
    rw [validateId_fixed_luhn_eq v w hpat halgoeq] at hvalid
    by_cases hlen : (mapToCharset w (v.charset.getD Charset.numeric)).length ≠
        v.totalLength.getD (v.groups.getD 4 * v.groupSize.getD 4)
    · rw [if_pos hlen] at hvalid
      exact absurd hvalid (by simp)
    rw [if_neg hlen] at hvalid
    have hlenEq := not_not.mp hlen
    by_cases hg : (!(!(mapToCharset w (v.charset.getD Charset.numeric)).isEmpty &&
        (mapToCharset w (v.charset.getD Charset.numeric)).all Char.isDigit)) = true
    · rw [if_pos hg] at hvalid
      exact absurd hvalid (by simp)
    rw [if_neg hg] at hvalid
    have hLV : luhnValidate (mapToCharset w (v.charset.getD Charset.numeric)) = true := by
      simpa using hvalid
    have hX : (!(mapToCharset w (v.charset.getD Charset.numeric)).isEmpty &&
        (mapToCharset w (v.charset.getD Charset.numeric)).all Char.isDigit) = true := by
      rcases hb : (!(mapToCharset w (v.charset.getD Charset.numeric)).isEmpty &&
          (mapToCharset w (v.charset.getD Charset.numeric)).all Char.isDigit) with _ | _
      · exact absurd (by rw [hb]; rfl) hg
      · rfl
    rw [Bool.and_eq_true] at hX
    obtain ⟨hne0', hdig⟩ := hX
    have hne0 : (mapToCharset w (v.charset.getD Charset.numeric)).isEmpty = false := by
      simpa using hne0'
    have hNne : mapToCharset w (v.charset.getD Charset.numeric) ≠ [] := by
      intro h
      rw [h] at hne0
      simp at hne0
    have hwne : w ≠ [] := fun hwnil => hNne (by rw [hwnil, mapToCharset_nil])
    have hw := dropLast_concat_getLastD hwne 'u'
    have hsplit : mapToCharset w (v.charset.getD Charset.numeric) =
        mapToCharset w.dropLast (v.charset.getD Charset.numeric) ++
          mapToCharset [w.getLastD 'u'] (v.charset.getD Charset.numeric) := by
      conv_lhs => rw [← hw]
      rw [mapToCharset_append]
    rw [validateId_fixed_luhn_eq v (w.dropLast ++ [c']) hpat halgoeq, mapToCharset_append]
    rcases mapToCharset_single (w.getLastD 'u') (v.charset.getD Charset.numeric)
      with hB | ⟨d, hB, hdmem⟩ <;>
      rcases mapToCharset_single c' (v.charset.getD Charset.numeric)
        with hB' | ⟨d', hB', hd'mem⟩
    · rw [hB, hB'] at hdiff
      exact absurd rfl hdiff
    · rw [hB, List.append_nil] at hsplit
      rw [hsplit] at hlenEq
      rw [hB']
      rw [if_pos (by rw [List.length_append, List.length_singleton]; omega)]
    · rw [hB] at hsplit
      rw [hsplit, List.length_append, List.length_singleton] at hlenEq
      rw [hB', List.append_nil]
      rw [if_pos (by omega)]
    · rw [hB, hB'] at hdiff
      have hned : d' ≠ d := fun hcon => hdiff (by rw [hcon])
      rw [hB] at hsplit
      rw [hsplit] at hLV hlenEq hdig
      rw [hB']
      rw [if_neg (by
        rw [List.length_append, List.length_singleton] at hlenEq ⊢
        omega)]
      by_cases hg' : (!(!(mapToCharset w.dropLast (v.charset.getD Charset.numeric) ++
          [d']).isEmpty && (mapToCharset w.dropLast (v.charset.getD Charset.numeric) ++
          [d']).all Char.isDigit)) = true
      · rw [if_pos hg']
      · rw [if_neg hg']
        have hX' : (!(mapToCharset w.dropLast (v.charset.getD Charset.numeric) ++
            [d']).isEmpty && (mapToCharset w.dropLast (v.charset.getD Charset.numeric) ++
            [d']).all Char.isDigit) = true := by
          rcases hb : (!(mapToCharset w.dropLast (v.charset.getD Charset.numeric) ++
              [d']).isEmpty && (mapToCharset w.dropLast (v.charset.getD Charset.numeric) ++
              [d']).all Char.isDigit) with _ | _
          · exact absurd (by rw [hb]; rfl) hg'
          · rfl
        rw [Bool.and_eq_true] at hX'
        obtain ⟨_, hdig'⟩ := hX'
        rw [luhnValidate_last_flip hLV hdig' hned]
  · -- mod36
    rw [validateId_fixed_mod36_eq v w hpat halgoeq] at hvalid
    by_cases hlen : (mapToCharset w (v.charset.getD Charset.numeric)).length ≠
        v.totalLength.getD (v.groups.getD 4 * v.groupSize.getD 4)
    · rw [if_pos hlen] at hvalid
      exact absurd hvalid (by simp)
    rw [if_neg hlen] at hvalid
    have hlenEq := not_not.mp hlen
    by_cases hg : (!(!(mapToCharset w (v.charset.getD Charset.numeric)).isEmpty &&
        (mapToCharset w (v.charset.getD Charset.numeric)).all isBase36)) = true
    · rw [if_pos hg] at hvalid
      exact absurd hvalid (by simp)
    rw [if_neg hg] at hvalid
    have hLV : mod36Validate (mapToCharset w (v.charset.getD Charset.numeric)) = true := by
      simpa using hvalid
    have hX : (!(mapToCharset w (v.charset.getD Charset.numeric)).isEmpty &&
        (mapToCharset w (v.charset.getD Charset.numeric)).all isBase36) = true := by
      rcases hb : (!(mapToCharset w (v.charset.getD Charset.numeric)).isEmpty &&
          (mapToCharset w (v.charset.getD Charset.numeric)).all isBase36) with _ | _
      · exact absurd (by rw [hb]; rfl) hg
      · rfl
    rw [Bool.and_eq_true] at hX
    obtain ⟨hne0', hb36⟩ := hX
    have hne0 : (mapToCharset w (v.charset.getD Charset.numeric)).isEmpty = false := by
      simpa using hne0'
    have hNne : mapToCharset w (v.charset.getD Charset.numeric) ≠ [] := by
      intro h
      rw [h] at hne0
      simp at hne0
    have hwne : w ≠ [] := fun hwnil => hNne (by rw [hwnil, mapToCharset_nil])
    have hw := dropLast_concat_getLastD hwne 'u'
    have hsplit : mapToCharset w (v.charset.getD Charset.numeric) =
        mapToCharset w.dropLast (v.charset.getD Charset.numeric) ++
          mapToCharset [w.getLastD 'u'] (v.charset.getD Charset.numeric) := by
      conv_lhs => rw [← hw]
      rw [mapToCharset_append]
    rw [validateId_fixed_mod36_eq v (w.dropLast ++ [c']) hpat halgoeq, mapToCharset_append]
    rcases mapToCharset_single (w.getLastD 'u') (v.charset.getD Charset.numeric)
      with hB | ⟨d, hB, hdmem⟩ <;>
      rcases mapToCharset_single c' (v.charset.getD Charset.numeric)
        with hB' | ⟨d', hB', hd'mem⟩
    · rw [hB, hB'] at hdiff
      exact absurd rfl hdiff
    · rw [hB, List.append_nil] at hsplit
      rw [hsplit] at hlenEq
      rw [hB']
      rw [if_pos (by rw [List.length_append, List.length_singleton]; omega)]
    · rw [hB] at hsplit
      rw [hsplit, List.length_append, List.length_singleton] at hlenEq
      rw [hB', List.append_nil]
      rw [if_pos (by omega)]
    · rw [hB, hB'] at hdiff
      have hned : d' ≠ d := fun hcon => hdiff (by rw [hcon])
      rw [hB] at hsplit
      rw [hsplit] at hLV hlenEq hb36
      rw [hB']
      rw [if_neg (by
        rw [List.length_append, List.length_singleton] at hlenEq ⊢
        omega)]
      by_cases hg' : (!(!(mapToCharset w.dropLast (v.charset.getD Charset.numeric) ++
          [d']).isEmpty && (mapToCharset w.dropLast (v.charset.getD Charset.numeric) ++
          [d']).all isBase36)) = true
      · rw [if_pos hg']
      · rw [if_neg hg']
        have hX' : (!(mapToCharset w.dropLast (v.charset.getD Charset.numeric) ++
            [d']).isEmpty && (mapToCharset w.dropLast (v.charset.getD Charset.numeric) ++
            [d']).all isBase36) = true := by
          rcases hb : (!(mapToCharset w.dropLast (v.charset.getD Charset.numeric) ++
              [d']).isEmpty && (mapToCharset w.dropLast (v.charset.getD Charset.numeric) ++
              [d']).all isBase36) with _ | _
          · exact absurd (by rw [hb]; rfl) hg'
          · rfl
        rw [Bool.and_eq_true] at hX'
        obtain ⟨_, hb36'⟩ := hX'
        rw [mod36Validate_last_flip hLV hb36' hned]

/-- C6 (counterexample): in fixed-length mode the checksum slot is not sensitive to every
character replacement. "AQ" is mod36-valid under alphanumeric options, and replacing the
checksum character 'Q' by the different character 'q' still validates to true, because
validateId normalizes the input with toUpperCase before checking. -/
theorem checksum_flip_case_counterexample :
    validateId ['A', 'Q'] { totalLength := some 2, algorithm := some Algorithm.mod36, charset := some Charset.alphanumeric } = some true ∧
    ('q' ≠ 'Q' ∧
      validateId ['A', 'q'] { totalLength := some 2, algorithm := some Algorithm.mod36, charset := some Charset.alphanumeric } = some true) :=
  ⟨by decide, by decide, by decide⟩

/-- C6 (amended): checksum sensitivity as the code implements it. (1) In pattern mode
with an algorithm selected, replacing the character at the last '#' position of a valid
identifier with any different character makes validateId return false. (2) In pattern
mode, an input that differs from the trimmed pattern at a literal (non-'#') position is
rejected regardless of any checksum. (3) In fixed-length mode with an algorithm
selected, replacing the last character of a valid identifier with a character whose
charset normalization differs from the original last character's normalization makes
validateId return false (characters that normalize identically — such as a lowercase
letter for its uppercase form under the alphanumeric charset — are the exception the
original claim misses). -/
theorem checksum_sensitivity :
    (∀ (v : ValidateOptions) (w : List Char) (hp : ℕ) (c' : Char),
      (v.pattern.map jsTrim).getD [] ≠ [] →
      v.algorithm.getD Algorithm.none ≠ Algorithm.none →
      lastHashIndex ((v.pattern.map jsTrim).getD []) = some hp →
      validateId w v = some true →
      c' ≠ w.getD hp 'u' →
      validateId (w.set hp c') v = some false) ∧
    (∀ (v : ValidateOptions) (u : List Char) (j : ℕ),
      (v.pattern.map jsTrim).getD [] ≠ [] →
      j < ((v.pattern.map jsTrim).getD []).length →
      ((v.pattern.map jsTrim).getD []).getD j ' ' ≠ '#' →
      u.getD j ' ' ≠ ((v.pattern.map jsTrim).getD []).getD j ' ' →
      validateId u v = some false) ∧
    (∀ (v : ValidateOptions) (w : List Char) (c' : Char),
      (v.pattern.map jsTrim).getD [] = [] →
      v.algorithm.getD Algorithm.none ≠ Algorithm.none →
      validateId w v = some true →
      mapToCharset [c'] (v.charset.getD Charset.numeric) ≠
        mapToCharset [w.getLastD 'u'] (v.charset.getD Charset.numeric) →
      validateId (w.dropLast ++ [c']) v = some false) :=
  ⟨sensitivity_pattern_slot, sensitivity_pattern_literal, sensitivity_fixed_last⟩

/-- C6 witness: the amended sensitivity at concrete inputs — flipping the luhn checksum
slot of pattern-valid "18" under pattern "##", mismatching the literal 'A' of pattern
"A#", and flipping the last character of fixed-mode luhn-valid "18". -/
theorem checksum_sensitivity_witness :
    validateId (List.set ['1', '8'] 1 '3')
      { pattern := some ['#', '#'], algorithm := some Algorithm.luhn } = some false ∧
    validateId ['B', '5'] { pattern := some ['A', '#'] } = some false ∧
    validateId (List.dropLast ['1', '8'] ++ ['3'])
      { totalLength := some 2, algorithm := some Algorithm.luhn } = some false := by
  obtain ⟨ha, hb, hc⟩ := checksum_sensitivity
  refine ⟨?_, ?_, ?_⟩
  · exact ha { pattern := some ['#', '#'], algorithm := some Algorithm.luhn }
      ['1', '8'] 1 '3' (by decide) (by decide) (by decide) (by decide) (by decide)
  · exact hb { pattern := some ['A', '#'] } ['B', '5'] 0 (by decide) (by decide)
      (by decide) (by decide)
  · exact hc { totalLength := some 2, algorithm := some Algorithm.luhn } ['1', '8'] '3'
      (by decide) (by decide) (by decide) (by decide)

/-! ## Claim C9: determinism and rng consumption -/

/-- The number of body slots of a generateId call (each consumes one rng draw): the
non-checksum '#' slots of the trimmed pattern in pattern mode; the generated body length
(total, minus one for the checksum character when an algorithm is selected) in
fixed-length mode. -/
def rngBudget (o : GenerateOptions) : ℕ :=
  if o.pattern.getD [] ≠ [] ∧ jsTrim (o.pattern.getD []) ≠ [] then
    slotCount (o.algorithm.getD Algorithm.none ≠ Algorithm.none)
      (lastHashIndex (jsTrim (o.pattern.getD []))) (jsTrim (o.pattern.getD [])) 0
  else if o.algorithm.getD Algorithm.none ≠ Algorithm.none then
    o.totalLength.getD (o.groups.getD 4 * o.groupSize.getD 4) - 1
  else o.totalLength.getD (o.groups.getD 4 * o.groupSize.getD 4)

/-- The continuation of generateId's pattern mode after the fill loop: checksum
computation and injection applied to the filled string and the rng cursor. -/
def patternStep (o : GenerateOptions) (fr : List Char × ℕ) : Option (List Char) × ℕ :=
  let charset := o.charset.getD Charset.numeric
  let algo := o.algorithm.getD Algorithm.none
  let pattern := jsTrim (o.pattern.getD [])
  let hashPos := lastHashIndex pattern
  if algo = Algorithm.none then (some fr.1, fr.2)
  else
    let hp := hashPos.getD 0
    let body := extractBody pattern fr.1 0 hp
    match algo with
    | Algorithm.luhn =>
      if charset ≠ Charset.numeric then (Option.none, fr.2)
      else
        match luhnChecksumDigit body with
        | some d => (some (injectCheck hp (jsIntStr (d : ℤ)) fr.1 0), fr.2)
        | Option.none => (Option.none, fr.2)
    | Algorithm.mod36 =>
      if charset ≠ Charset.alphanumeric then (Option.none, fr.2)
      else
        match mod36CheckChar body with
        | some c => (some (injectCheck hp [c] fr.1 0), fr.2)
        | Option.none => (Option.none, fr.2)
    | Algorithm.none => (Option.none, fr.2)

lemma generateIdCore_pattern_step (o : GenerateOptions) (rng : ℕ → ℚ)
    (hcond : o.pattern.getD [] ≠ [] ∧ jsTrim (o.pattern.getD []) ≠ []) :
    generateIdCore o rng =
      (if o.algorithm.getD Algorithm.none ≠ Algorithm.none ∧
          lastHashIndex (jsTrim (o.pattern.getD [])) = Option.none then (Option.none, 0)
       else patternStep o (fillPattern rng (o.charset.getD Charset.numeric)
         (o.algorithm.getD Algorithm.none ≠ Algorithm.none)
         (lastHashIndex (jsTrim (o.pattern.getD []))) (jsTrim (o.pattern.getD [])) 0 0)) := by
  simp only [generateIdCore, patternStep]
  rw [if_pos hcond]

lemma patternStep_snd (o : GenerateOptions) (fr : List Char × ℕ) :
    (patternStep o fr).2 = fr.2 := by
  simp only [patternStep]
  rcases o.algorithm.getD Algorithm.none with _ | _ | _
  · rfl
  · rw [if_neg (by decide)]
    by_cases hcs : o.charset.getD Charset.numeric ≠ Charset.numeric
    · rw [if_pos hcs]
    · rw [if_neg hcs]
      rcases luhnChecksumDigit (extractBody (jsTrim (o.pattern.getD [])) fr.1 0
          ((lastHashIndex (jsTrim (o.pattern.getD []))).getD 0)) with _ | d
      · rfl
      · rfl
  · rw [if_neg (by decide)]
    by_cases hcs : o.charset.getD Charset.numeric ≠ Charset.alphanumeric
    · rw [if_pos hcs]
    · rw [if_neg hcs]
      rcases mod36CheckChar (extractBody (jsTrim (o.pattern.getD [])) fr.1 0
          ((lastHashIndex (jsTrim (o.pattern.getD []))).getD 0)) with _ | c
      · rfl
      · rfl

lemma finishFixed_snd (o : GenerateOptions) (g gs : ℕ) (cs : Charset) (full : List Char)
    (k : ℕ) : (finishFixed o g gs cs full k).2 = k := by
  unfold finishFixed
  by_cases hsep : o.separator.getD [] ≠ []
  · rw [if_pos hsep]
    rcases formatId full ⟨some g, some gs, o.separator, some cs⟩ with _ | s
    · rfl
    · rfl
  · rw [if_neg hsep]

lemma generateFixed_congr (o : GenerateOptions) (rng1 rng2 : ℕ → ℚ)
    (hag : ∀ i, i < (if o.algorithm.getD Algorithm.none ≠ Algorithm.none then
        o.totalLength.getD (o.groups.getD 4 * o.groupSize.getD 4) - 1
      else o.totalLength.getD (o.groups.getD 4 * o.groupSize.getD 4)) → rng1 i = rng2 i) :
    generateFixed o rng1 = generateFixed o rng2 := by
  simp only [generateFixed]
  by_cases h1 : o.resTotal < 2
  · simp only [if_pos h1]
  simp only [if_neg h1]
  by_cases h2 : o.totalLength.getD 0 ≠ 0 ∧ o.separator.getD [] ≠ [] ∧
      o.totalLength.getD 0 ≠ o.groups.getD 4 * o.groupSize.getD 4
  · simp only [if_pos h2]
  simp only [if_neg h2]
  by_cases h3 : o.resAlgorithm = Algorithm.luhn ∧ o.resCharset ≠ Charset.numeric
  · simp only [if_pos h3]
  simp only [if_neg h3]
  by_cases h4 : o.resAlgorithm = Algorithm.mod36 ∧ o.resCharset ≠ Charset.alphanumeric
  · simp only [if_pos h4]
  simp only [if_neg h4]
  have htot : 2 ≤ o.totalLength.getD (o.groups.getD 4 * o.groupSize.getD 4) := by
    have : ¬(o.totalLength.getD (o.groups.getD 4 * o.groupSize.getD 4) < 2) := h1
    omega
  have hbl : 1 ≤ (if o.algorithm.getD Algorithm.none ≠ Algorithm.none then
      o.totalLength.getD (o.groups.getD 4 * o.groupSize.getD 4) - 1
    else o.totalLength.getD (o.groups.getD 4 * o.groupSize.getD 4)) := by
    split <;> omega
  have hag' : ∀ m, 0 ≤ m → m < 0 + (if o.algorithm.getD Algorithm.none ≠ Algorithm.none then
      o.totalLength.getD (o.groups.getD 4 * o.groupSize.getD 4) - 1
    else o.totalLength.getD (o.groups.getD 4 * o.groupSize.getD 4)) → rng1 m = rng2 m :=
    fun m _ hm2 => hag m (by omega)
  by_cases hcs : o.charset.getD Charset.numeric = Charset.numeric
  · simp only [if_pos hcs]
    rw [genNumericBody_congr 0 rng1 rng2 hag' hbl]
  · simp only [if_neg hcs]
    rw [genAlnumChars_congr 0 _ rng1 rng2 hag']

lemma generateIdCore_congr (o : GenerateOptions) (rng1 rng2 : ℕ → ℚ)
    (hag : ∀ i, i < rngBudget o → rng1 i = rng2 i) :
    generateIdCore o rng1 = generateIdCore o rng2 := by
  by_cases hcond : o.pattern.getD [] ≠ [] ∧ jsTrim (o.pattern.getD []) ≠ []
  · simp only [rngBudget, if_pos hcond] at hag
    rw [generateIdCore_pattern_step o rng1 hcond, generateIdCore_pattern_step o rng2 hcond]
    have hfp : fillPattern rng1 (o.charset.getD Charset.numeric)
        (o.algorithm.getD Algorithm.none ≠ Algorithm.none)
        (lastHashIndex (jsTrim (o.pattern.getD []))) (jsTrim (o.pattern.getD [])) 0 0 =
        fillPattern rng2 (o.charset.getD Charset.numeric)
          (o.algorithm.getD Algorithm.none ≠ Algorithm.none)
          (lastHashIndex (jsTrim (o.pattern.getD []))) (jsTrim (o.pattern.getD [])) 0 0 :=
      fillPattern_congr _ _ _ _ 0 0 rng1 rng2 (fun m _ hm2 => hag m (by omega))
    rw [hfp]
  · have hor : o.pattern.getD [] = [] ∨ jsTrim (o.pattern.getD []) = [] := by
      by_cases hA : o.pattern.getD [] = []
      · exact Or.inl hA
      · refine Or.inr ?_
        by_contra hB
        exact hcond ⟨hA, hB⟩
    simp only [rngBudget, if_neg hcond] at hag
    rw [generateIdCore_fixed o rng1 hor, generateIdCore_fixed o rng2 hor]
    exact generateFixed_congr o rng1 rng2 hag

lemma generateFixed_snd (o : GenerateOptions) (rng : ℕ → ℚ) (out : List Char)
    (h : (generateFixed o rng).1 = some out) :
    (generateFixed o rng).2 =
      (if o.algorithm.getD Algorithm.none ≠ Algorithm.none then
        o.totalLength.getD (o.groups.getD 4 * o.groupSize.getD 4) - 1
      else o.totalLength.getD (o.groups.getD 4 * o.groupSize.getD 4)) := by
  simp only [generateFixed] at h ⊢
  by_cases h1 : o.resTotal < 2
  · rw [if_pos h1] at h
    exact absurd h (by simp)
  rw [if_neg h1] at h
  simp only [if_neg h1]
  by_cases h2 : o.totalLength.getD 0 ≠ 0 ∧ o.separator.getD [] ≠ [] ∧
      o.totalLength.getD 0 ≠ o.groups.getD 4 * o.groupSize.getD 4
  · rw [if_pos h2] at h
    exact absurd h (by simp)
  rw [if_neg h2] at h
  simp only [if_neg h2]
  by_cases h3 : o.resAlgorithm = Algorithm.luhn ∧ o.resCharset ≠ Charset.numeric
  · rw [if_pos h3] at h
    exact absurd h (by simp)
  rw [if_neg h3] at h
  simp only [if_neg h3]
  by_cases h4 : o.resAlgorithm = Algorithm.mod36 ∧ o.resCharset ≠ Charset.alphanumeric
  · rw [if_pos h4] at h
    exact absurd h (by simp)
  simp only [if_neg h4]
  have htot : 2 ≤ o.totalLength.getD (o.groups.getD 4 * o.groupSize.getD 4) := by
    have : ¬(o.totalLength.getD (o.groups.getD 4 * o.groupSize.getD 4) < 2) := h1
    omega
  rcases o.algorithm.getD Algorithm.none with _ | _ | _
  · simp only [if_neg (show ¬(Algorithm.none ≠ Algorithm.none) by decide)]
    by_cases hcs : o.charset.getD Charset.numeric = Charset.numeric
    · simp only [if_pos hcs]
      have hbl : 1 ≤ o.totalLength.getD (o.groups.getD 4 * o.groupSize.getD 4) := by omega
      rw [finishFixed_snd, genNumericBody_next rng hbl 0]
      omega
    · simp only [if_neg hcs]
      rw [finishFixed_snd, genAlnumChars_next]
      omega
  · simp only [if_pos (show Algorithm.luhn ≠ Algorithm.none by decide)]
    have hbl : 1 ≤ o.totalLength.getD (o.groups.getD 4 * o.groupSize.getD 4) - 1 := by omega
    by_cases hcs : o.charset.getD Charset.numeric = Charset.numeric
    · simp only [if_pos hcs]
      rcases luhnChecksumDigit (genNumericBody rng 0
          (o.totalLength.getD (o.groups.getD 4 * o.groupSize.getD 4) - 1)).1 with _ | d
      · show (genNumericBody rng 0
            (o.totalLength.getD (o.groups.getD 4 * o.groupSize.getD 4) - 1)).2 = _
        rw [genNumericBody_next rng hbl 0]
        omega
      · rw [finishFixed_snd, genNumericBody_next rng hbl 0]
        omega
    · simp only [if_neg hcs]
      rcases luhnChecksumDigit (genAlnumChars rng 0
          (o.totalLength.getD (o.groups.getD 4 * o.groupSize.getD 4) - 1)).1 with _ | d
      · show (genAlnumChars rng 0
            (o.totalLength.getD (o.groups.getD 4 * o.groupSize.getD 4) - 1)).2 = _
        rw [genAlnumChars_next]
        omega
      · rw [finishFixed_snd, genAlnumChars_next]
        omega
  · simp only [if_pos (show Algorithm.mod36 ≠ Algorithm.none by decide)]
    have hbl : 1 ≤ o.totalLength.getD (o.groups.getD 4 * o.groupSize.getD 4) - 1 := by omega
    by_cases hcs : o.charset.getD Charset.numeric = Charset.numeric
    · simp only [if_pos hcs]
      rcases mod36CheckChar (genNumericBody rng 0
          (o.totalLength.getD (o.groups.getD 4 * o.groupSize.getD 4) - 1)).1 with _ | c
      · show (genNumericBody rng 0
            (o.totalLength.getD (o.groups.getD 4 * o.groupSize.getD 4) - 1)).2 = _
        rw [genNumericBody_next rng hbl 0]
        omega
      · rw [finishFixed_snd, genNumericBody_next rng hbl 0]
        omega
    · simp only [if_neg hcs]
      rcases mod36CheckChar (genAlnumChars rng 0
          (o.totalLength.getD (o.groups.getD 4 * o.groupSize.getD 4) - 1)).1 with _ | c
      · show (genAlnumChars rng 0
            (o.totalLength.getD (o.groups.getD 4 * o.groupSize.getD 4) - 1)).2 = _
        rw [genAlnumChars_next]
        omega
      · rw [finishFixed_snd, genAlnumChars_next]
        omega

lemma generateIdCore_snd (o : GenerateOptions) (rng : ℕ → ℚ) (out : List Char)
    (h : (generateIdCore o rng).1 = some out) :
    (generateIdCore o rng).2 = rngBudget o := by
  by_cases hcond : o.pattern.getD [] ≠ [] ∧ jsTrim (o.pattern.getD []) ≠ []
  · rw [generateIdCore_pattern_step o rng hcond] at h ⊢
    simp only [rngBudget, if_pos hcond]
    by_cases hnone : o.algorithm.getD Algorithm.none ≠ Algorithm.none ∧
        lastHashIndex (jsTrim (o.pattern.getD [])) = Option.none
    · rw [if_pos hnone] at h
      exact absurd h (by simp)
    · rw [if_neg hnone] at h ⊢
      rw [patternStep_snd, fillPattern_next]
      omega
  · have hor : o.pattern.getD [] = [] ∨ jsTrim (o.pattern.getD []) = [] := by
      by_cases hA : o.pattern.getD [] = []
      · exact Or.inl hA
      · refine Or.inr ?_
        by_contra hB
        exact hcond ⟨hA, hB⟩
    rw [generateIdCore_fixed o rng hor] at h ⊢
    simp only [rngBudget, if_neg hcond]
    exact generateFixed_snd o rng out h

/-- C9: generateId is a deterministic function of its options and the consumed rng
values. Two runs with equal options whose rng sequences agree on the first rngBudget
values (the number of body slots) give identical results — output and rng cursor — and
every successful run consumes exactly one rng value per body slot, i.e. exactly
rngBudget values in left-to-right order. -/
theorem generateId_deterministic :
    ∀ (o : GenerateOptions) (rng1 rng2 : ℕ → ℚ),
      ((∀ i, i < rngBudget o → rng1 i = rng2 i) →
        generateId o rng1 = generateId o rng2 ∧
          generateIdCore o rng1 = generateIdCore o rng2) ∧
      (∀ out, generateId o rng1 = some out → (generateIdCore o rng1).2 = rngBudget o) :=
  fun o rng1 rng2 =>
    ⟨fun hag =>
      ⟨congrArg Prod.fst (generateIdCore_congr o rng1 rng2 hag),
        generateIdCore_congr o rng1 rng2 hag⟩,
      fun out h => generateIdCore_snd o rng1 out h⟩

/-- C9 witness: the determinism statement at the default options (fixed-length numeric,
16 digits) with the constant-zero rng on both sides. -/
theorem generateId_deterministic_witness :
    (generateId {} (fun _ => 0) = generateId {} (fun _ => 0) ∧
      generateIdCore {} (fun _ => 0) = generateIdCore {} (fun _ => 0)) ∧
    (generateIdCore ({} : GenerateOptions) (fun _ => 0)).2 = rngBudget {} := by
  obtain ⟨h1, h2⟩ := generateId_deterministic {} (fun _ => 0) (fun _ => 0)
  exact ⟨h1 (fun i _ => rfl),
    h2 ((genNumericBody (fun _ => 0) 0 16).1) rfl⟩

end IdKit
